import Mathlib

/-!
Verification of the NLSD (Natural Language Structured Document) engine:
a shallow embedding, in Lean 4, of the Rust sources of the `nlsd` repository
(tokenizer `src/parser.rs`, deserializer `src/de.rs`, serializer `src/ser.rs`,
the generic value model `value/src/*.rs`, and the NLOQ query deserializer
`nloq/src/de.rs`), together with theorems settling the specification claims.

Modelling conventions, fixed once for the whole file:

* Rust string slices are embedded as `List Char`.  The source iterates with
  `chars().enumerate()` (character positions) and then slices with those
  positions (byte offsets); the two agree on ASCII input, and every concrete
  input used below is ASCII.  Offsets are therefore character indices.
* Whitespace is `Char.isWhitespace` (ASCII whitespace); the source uses
  Unicode `char::is_whitespace`.  The two agree on all inputs considered here.
* Rust `i64` parsing is embedded exactly, including the two's-complement
  range check.  Rust `f64` values are embedded as exact rationals `Rat`; the
  embedded float grammar covers the decimal forms (sign, digits, optional
  fraction) and not the exponent/inf/nan forms, which no claim exercises.
  A float is "integer valued" (`trunc() == num` in the source) exactly when
  its rational denominator is 1, and "sign negative" when it is negative;
  the IEEE value `-0.0` has no rational counterpart and is not considered.
* Rust `usize` arithmetic is embedded with an explicit checked subtraction:
  `a - b` underflows ("attempt to subtract with overflow") when `b > a`,
  which the embedding surfaces as an explicit error value.
* The borrow/own distinction of `Cow<str>` is embedded by an explicit
  two-constructor result type: `borrowed` is returned exactly when the
  source returns `Cow::Borrowed` (no allocation).
-/

namespace Nlsd

/-- Convenience for the three delimiter characters and the escape character,
written via code points so that the embedding is unambiguous:
backtick (96), double quote (34), single quote (39), backslash (92). -/
def backtickC : Char := Char.ofNat 96

/-- Double-quote delimiter character (code point 34). -/
def dquoteC : Char := Char.ofNat 34

/-- Single-quote delimiter character (code point 39). -/
def squoteC : Char := Char.ofNat 39

/-- Backslash escape character (code point 92). -/
def backslashC : Char := Char.ofNat 92

/-- Slice `src[a..b]` of a character list, as in the Rust source. -/
def sliceCL (s : List Char) (a b : Nat) : List Char :=
  (s.drop a).take (b - a)

/-- Numbers produced by the tokenizer: `parser.rs` `enum Number`.
Rust `f64` floats are embedded as exact rationals (see the header). -/
inductive PNumber where
  | float (q : Rat)
  | integer (n : Int)
deriving DecidableEq, Repr

/-- Tokenizer output: `parser.rs` `enum Parsed<'a>`. -/
inductive Parsed where
  | token (s : List Char)
  | str (s : List Char)
  | number (n : PNumber)
deriving DecidableEq, Repr

/-- Tokenizer errors: `parser.rs` `enum ParseError`.  Offsets are character
indices into the slice handed to the failing function. -/
inductive ParseError where
  | unexpectedEof
  | invalidString (i : Nat)
  | invalidNumber (i : Nat)
  | expectedWhitespace (i : Nat)
deriving DecidableEq, Repr

/-- Loop of `parse_token` (`parser.rs` lines 22-43): a single pass recording
`t_start` (first non-whitespace), `t_end` (next whitespace) and `end`
(start of the following token, at which the source `break`s). -/
def parse_token_loop : List Char → Nat → Option Nat → Option Nat →
    (Option Nat × Option Nat × Option Nat)
  | [], _, tStart, tEnd => (tStart, tEnd, none)
  | c :: cs, i, none, tEnd =>
      if ¬ c.isWhitespace then parse_token_loop cs (i + 1) (some i) tEnd
      else parse_token_loop cs (i + 1) none tEnd
  | c :: cs, i, some ts, none =>
      if c.isWhitespace then parse_token_loop cs (i + 1) (some ts) (some i)
      else parse_token_loop cs (i + 1) (some ts) none
  | c :: cs, i, some ts, some te =>
      if ¬ c.isWhitespace then (some ts, some te, some i)
      else parse_token_loop cs (i + 1) (some ts) (some te)

/-- Embedding of `parse_token` (`parser.rs` lines 22-56): skip leading
whitespace, take the maximal non-whitespace run, consume trailing
whitespace, and return `(start index, token, remaining slice)`. -/
def parse_token (src : List Char) : Except ParseError (Nat × List Char × List Char) :=
  match parse_token_loop src 0 none none with
  | (none, _, _) => .error .unexpectedEof
  | (some ts, none, _) => .ok (ts, src.drop ts, [])
  | (some ts, some te, none) => .ok (ts, sliceCL src ts te, [])
  | (some ts, some te, some e) => .ok (ts, sliceCL src ts te, src.drop e)

/-- Phase 3 of the `parse_delimited` loop (`parser.rs` lines 95-102): after
the closing delimiter was found, a non-whitespace character immediately
following it (`was_end_char` still set) is `ExpectedWhitespace`; a later
non-whitespace character starts the remainder. -/
def pd_after : List Char → Nat → Bool → Except ParseError (Option Nat)
  | [], _, _ => .ok none
  | c :: cs, i, wasEnd =>
      if ¬ c.isWhitespace then
        if wasEnd then .error (.expectedWhitespace i) else .ok (some i)
      else pd_after cs (i + 1) false

/-- Phase 2 of the `parse_delimited` loop (`parser.rs` lines 84-93): scan the
content.  An unescaped `end_char` closes the string; `escape_char` arms the
escape for exactly the next character.  Running out of input before the
closer is `UnexpectedEof` (the source's `s_end.is_none()` check). -/
def pd_content (endC escC : Char) : List Char → Nat → Bool →
    Except ParseError (Nat × Option Nat)
  | [], _, _ => .error .unexpectedEof
  | c :: cs, i, wasEsc =>
      if ¬ wasEsc ∧ c = endC then
        match pd_after cs (i + 1) true with
        | .error e => .error e
        | .ok endi => .ok (i, endi)
      else if c = escC then pd_content endC escC cs (i + 1) true
      else pd_content endC escC cs (i + 1) false

/-- Phase 1 of the `parse_delimited` loop (`parser.rs` lines 71-82): skip
whitespace until `start_char`; any other non-whitespace character is
`InvalidString`.  Returns the content start index (the character after the
opener).  Running out of input is `UnexpectedEof` (`s_start.is_none()`). -/
def pd_start (startC : Char) : List Char → Nat → Except ParseError Nat
  | [], _ => .error .unexpectedEof
  | c :: cs, i =>
      if c = startC then .ok (i + 1)
      else if c.isWhitespace then pd_start startC cs (i + 1)
      else .error (.invalidString i)

/-- Embedding of `parse_delimited` (`parser.rs` lines 58-116).  The source is
one loop over the characters whose state advances through three monotone
phases (before the opener / inside the content / after the closer); the
embedding spells the phases out as `pd_start`, `pd_content`, `pd_after`,
preserving every error case and offset. -/
def parse_delimited (src : List Char) (startC endC escC : Char) :
    Except ParseError (Nat × List Char × List Char) := do
  let sStart ← pd_start startC src 0
  let (sEnd, endi) ← pd_content endC escC (src.drop sStart) sStart false
  match endi with
  | none => .ok (sStart, sliceCL src sStart sEnd, [])
  | some e => .ok (sStart, sliceCL src sStart sEnd, src.drop e)

/-- Embedding of `parse_string` (`parser.rs` lines 118-133): the first
non-whitespace character must be one of the three delimiters; the delimiter
is recorded and `parse_delimited` runs on the slice starting at it.  Note
that only the success index is rebased by `s_start` — error offsets from
`parse_delimited` are returned unchanged, hence relative to the recorded
delimiter's position. -/
def parse_string (src : List Char) : Except ParseError (Nat × List Char × List Char) :=
  match (src.enum).find? (fun p => ¬ p.2.isWhitespace) with
  | none => .error .unexpectedEof
  | some (sStart, c) =>
      if c = squoteC ∨ c = backtickC ∨ c = dquoteC then
        match parse_delimited (src.drop sStart) c c backslashC with
        | .error e => .error e
        | .ok (index, res, rest) => .ok (index + sStart, res, rest)
      else .error (.invalidString sStart)

/-- Decimal digit run to a natural number; `none` on empty or non-digit. -/
def digitsToNat? : List Char → Option Nat
  | [] => none
  | cs =>
    if cs.all (fun c => c.isDigit) then
      some (cs.foldl (fun acc c => acc * 10 + (c.toNat - 48)) 0)
    else none

/-- Embedding of Rust `i64::from_str`: optional sign, decimal digits, and
the two's-complement range check (overflow fails the parse). -/
def parse_i64? (s : List Char) : Option Int :=
  match s with
  | c :: cs =>
    if c = Char.ofNat 45 then
      match digitsToNat? cs with
      | some n => if n ≤ 2 ^ 63 then some (-(n : Int)) else none
      | none => none
    else if c = Char.ofNat 43 then
      match digitsToNat? cs with
      | some n => if n ≤ 2 ^ 63 - 1 then some (n : Int) else none
      | none => none
    else
      match digitsToNat? s with
      | some n => if n ≤ 2 ^ 63 - 1 then some (n : Int) else none
      | none => none
  | [] => none

/-- Embedding of Rust `f64::from_str`, restricted to the decimal forms
`[+-] digits [. digits]` and `[+-] digits .` that the claims exercise
(exponent, `inf` and `nan` forms are outside this model); the value is the
exact rational the literal denotes. -/
def parse_f64? (s : List Char) : Option Rat :=
  let core : List Char → Option Rat := fun t =>
    match t.splitOn (Char.ofNat 46) with
    | [intPart] =>
      match digitsToNat? intPart with
      | some n => some (mkRat n 1)
      | none => none
    | [intPart, fracPart] =>
      match digitsToNat? intPart with
      | some n =>
        if fracPart = [] then some (mkRat n 1)
        else
          match digitsToNat? fracPart with
          | some f =>
            some (mkRat (n * 10 ^ fracPart.length + f) (10 ^ fracPart.length))
          | none => none
      | none => none
    | _ => none
  match s with
  | c :: cs =>
    if c = Char.ofNat 45 then (core cs).map (fun q => -q)
    else if c = Char.ofNat 43 then core cs
    else core s
  | [] => none

/-- Embedding of `parse_number` (`parser.rs` lines 135-144): tokenize, try
the integer parse, then the float parse, else `InvalidNumber` at the token
start. -/
def parse_number (src : List Char) : Except ParseError (Nat × PNumber × List Char) := do
  let (index, token, rest) ← parse_token src
  match parse_i64? token with
  | some n => .ok (index, .integer n, rest)
  | none =>
    match parse_f64? token with
    | some q => .ok (index, .float q, rest)
    | none => .error (.invalidNumber index)

/-- Embedding of `parse_next` (`parser.rs` lines 146-154): first success of
`parse_string`, `parse_number`, `parse_token`, in that order. -/
def parse_next (src : List Char) : Except ParseError (Nat × Parsed × List Char) :=
  match parse_string src with
  | .ok (index, s, rest) => .ok (index, .str s, rest)
  | .error _ =>
    match parse_number src with
    | .ok (index, n, rest) => .ok (index, .number n, rest)
    | .error _ =>
      match parse_token src with
      | .ok (index, t, rest) => .ok (index, .token t, rest)
      | .error e => .error e

/-- NLSD error taxonomy: `src/error.rs` `enum Error`.  The `Io` variant is
omitted: the embedding's writers are total.  `Custom` carries the message. -/
inductive Error where
  | custom (msg : List Char)
  | unexpectedKeyType
  | bytesUnsupported
  | parse (e : ParseError)
  | expectedBool
  | expectedNull
  | expectedInteger
  | expectedFloat
  | expectedUnsigned
  | expectedChar
  | expectedString
  | expectedKeyWord (w : List Char)
  | expectedObjectDescriptor
  | expectedObjectEntry
  | expectedListItem
  | expectedPrimitiveMapKey
  | expectedStringMapKey
  | shouldBeDeclaredEmpty
  | expectedUnitVariant
  | unexpectedUnitVariant
deriving DecidableEq, Repr

/-- Embedding of `Cow<'a, str>` as returned by `unescape_str` and consumed by
`deserialize_str` (`de.rs` lines 423-431): `borrowed` is the allocation-free
path (`visit_borrowed_str`), `owned` the allocating one (`visit_string`). -/
inductive Cow where
  | borrowed (s : List Char)
  | owned (s : List Char)
deriving DecidableEq, Repr

/-- Underlying text of a `Cow`. -/
def Cow.chars : Cow → List Char
  | .borrowed s => s
  | .owned s => s

/-- Core of `unescape_str` (`de.rs` lines 38-45): Rust
`string.replace("\\`", "`")` — every (left-to-right, non-overlapping)
occurrence of backslash-backtick becomes a backtick.  Note the pattern is
the literal backtick escape regardless of which delimiter recorded the
string. -/
def unescape_core : List Char → List Char
  | [] => []
  | [c] => [c]
  | a :: b :: rest =>
    if a = backslashC ∧ b = backtickC then backtickC :: unescape_core rest
    else a :: unescape_core (b :: rest)

/-- Embedding of `unescape_str` (`de.rs` lines 38-45): compute the
replacement; if it equals the input, return the borrowed original,
otherwise the owned replacement. -/
def unescape_str (s : List Char) : Cow :=
  let out := unescape_core s
  if out = s then .borrowed s else .owned out

/-- Loop of `dehumanize_snake` (`de.rs` lines 47-62). -/
def dh_snake_loop : List Char → List Char → Bool → List Char
  | [], out, _ => out
  | ch :: rest, out, wasWs =>
    if ch.isWhitespace then dh_snake_loop rest out true
    else
      dh_snake_loop rest
        (out ++ (if wasWs ∧ out ≠ [] then [Char.ofNat 95] else []) ++ [ch]) false

/-- Embedding of `dehumanize_snake` (`de.rs` lines 47-62): replace interior
whitespace runs by a single underscore. -/
def dehumanize_snake (s : List Char) : List Char :=
  dh_snake_loop s [] false

/-- Loop of `dehumanize_camel` (`de.rs` lines 64-80).  `char::to_uppercase`
is embedded as `Char.toUpper` (they agree on ASCII). -/
def dh_camel_loop : List Char → List Char → Bool → List Char
  | [], out, _ => out
  | ch :: rest, out, wasWs =>
    if ch.isWhitespace then dh_camel_loop rest out true
    else if wasWs ∨ out = [] then dh_camel_loop rest (out ++ [ch.toUpper]) false
    else dh_camel_loop rest (out ++ [ch]) false

/-- Embedding of `dehumanize_camel` (`de.rs` lines 64-80). -/
def dehumanize_camel (s : List Char) : List Char :=
  dh_camel_loop s [] false

/-- Embedding of `dehumanize_match` (`de.rs` lines 82-95): literal match,
then snake-case match, then camel-case match against the candidate list. -/
def dehumanize_match (s : List Char) (candidates : List (List Char)) :
    Option (List Char) :=
  match candidates.find? (fun c => c = s) with
  | some c => some c
  | none =>
    match candidates.find? (fun c => c = dehumanize_snake s) with
    | some c => some c
    | none => candidates.find? (fun c => c = dehumanize_camel s)

/-- Keyword constants of `de.rs` lines 8-29. -/
def kwTRUE : List Char := "true".data

/-- Keyword `false`. -/
def kwFALSE : List Char := "false".data

/-- Keyword `on`. -/
def kwON : List Char := "on".data

/-- Keyword `off`. -/
def kwOFF : List Char := "off".data

/-- Keyword `enabled`. -/
def kwENABLED : List Char := "enabled".data

/-- Keyword `disabled`. -/
def kwDISABLED : List Char := "disabled".data

/-- Keyword `empty`. -/
def kwEMPTY : List Char := "empty".data

/-- Keyword `nothing`. -/
def kwNOTHING : List Char := "nothing".data

/-- Keyword `the`. -/
def kwTHE : List Char := "the".data

/-- Keyword `object`. -/
def kwOBJECT : List Char := "object".data

/-- Keyword `list`. -/
def kwLIST : List Char := "list".data

/-- Keyword `henceforth`. -/
def kwHENCEFORTH : List Char := "henceforth".data

/-- Keyword `where`. -/
def kwWHERE : List Char := "where".data

/-- Keyword `an`. -/
def kwAN : List Char := "an".data

/-- Keyword `item`. -/
def kwITEM : List Char := "item".data

/-- Keyword `of`. -/
def kwOF : List Char := "of".data

/-- Keyword `which`. -/
def kwWHICH : List Char := "which".data

/-- Keyword `is`. -/
def kwIS : List Char := "is".data

/-- Keyword `and`. -/
def kwAND : List Char := "and".data

/-- Keyword `another`. -/
def kwANOTHER : List Char := "another".data

/-- Embedding of the NLSD `Deserializer` cursor (`de.rs` lines 32-36). -/
structure De where
  src : List Char
  index : Nat
deriving DecidableEq, Repr

namespace De

/-- Remaining slice, `de.rs` `fn src` (line 163-166). -/
def rest (de : De) : List Char := de.src.drop de.index

/-- Embedding of `inc_err_index` (`de.rs` lines 147-157): rebase positioned
parse errors by the cursor; `UnexpectedEof` carries no position. -/
def inc_err_index (de : De) (e : ParseError) : Error :=
  .parse (match e with
    | .invalidString i => .invalidString (i + de.index)
    | .invalidNumber i => .invalidNumber (i + de.index)
    | .expectedWhitespace i => .expectedWhitespace (i + de.index)
    | .unexpectedEof => .unexpectedEof)

/-- Embedding of `inc_parse_result` (`de.rs` lines 141-145): advance the
cursor by the number of consumed characters; rebase error offsets. -/
def inc_parse_result (de : De) (r : Except ParseError (Nat × α × List Char)) :
    Except Error (α × De) :=
  match r with
  | .error e => .error (de.inc_err_index e)
  | .ok (_, a, rem) => .ok (a, { de with index := de.index + (de.rest.length - rem.length) })

/-- Embedding of `peek_next` (`de.rs` lines 111-115): parse without moving
the cursor. -/
def peek_next (de : De) : Except Error Parsed :=
  match parse_next de.rest with
  | .error e => .error (de.inc_err_index e)
  | .ok (_, parsed, _) => .ok parsed

/-- Embedding of the cursor-advancing `parse_next` (`de.rs` lines 117-119). -/
def parse_next (de : De) : Except Error (Parsed × De) :=
  de.inc_parse_result (Nlsd.parse_next de.rest)

/-- Embedding of the cursor-advancing `parse_token` (`de.rs` lines 121-123). -/
def parse_token (de : De) : Except Error (List Char × De) :=
  de.inc_parse_result (Nlsd.parse_token de.rest)

/-- Embedding of the cursor-advancing `parse_string` (`de.rs` lines 125-127). -/
def parse_string (de : De) : Except Error (List Char × De) :=
  de.inc_parse_result (Nlsd.parse_string de.rest)

/-- Embedding of the cursor-advancing `parse_number` (`de.rs` lines 129-131). -/
def parse_number (de : De) : Except Error (PNumber × De) :=
  de.inc_parse_result (Nlsd.parse_number de.rest)

/-- Embedding of `parse_and_expect_token` (`de.rs` lines 133-139). -/
def parse_and_expect_token (de : De) (token : List Char) : Except Error De := do
  let (t, de') ← de.parse_token
  if t = token then .ok de' else .error (.expectedKeyWord token)

/-- Embedding of `rollback` (`de.rs` lines 159-161). -/
def rollback (de : De) (index : Nat) : De := { de with index := index }

/-- Embedding of `deserialize_bool` (`de.rs` lines 214-223); the boolean is
what the source hands to `visitor.visit_bool`. -/
def deserialize_bool (de : De) : Except Error (Bool × De) := do
  let (t, de') ← de.parse_token
  if t = kwTRUE ∨ t = kwON ∨ t = kwENABLED then .ok (true, de')
  else if t = kwFALSE ∨ t = kwOFF ∨ t = kwDISABLED then .ok (false, de')
  else .error .expectedBool

/-- Embedding of `deserialize_unit` (`de.rs` lines 225-233). -/
def deserialize_unit (de : De) : Except Error (Unit × De) := do
  let (t, de') ← de.parse_token
  if t = kwEMPTY ∨ t = kwNOTHING then .ok ((), de')
  else .error .expectedNull

/-- Embedding of `deserialize_i64` (`de.rs` lines 235-249): an integer is
passed through; a float is accepted when `num.trunc() == num` (here: the
rational is an integer), else `ExpectedInteger`.  The returned integer is
what reaches `visit_i64`. -/
def deserialize_i64 (de : De) : Except Error (Int × De) := do
  let (n, de') ← de.parse_number
  match n with
  | .integer num => .ok (num, de')
  | .float num =>
    if num.den = 1 then .ok (num.num, de')
    else .error .expectedInteger

/-- Embedding of `deserialize_u64` (`de.rs` lines 299-323): a negative
integer is `ExpectedUnsigned`; a float is first checked integer-valued
(else `ExpectedInteger`), then sign-checked (else `ExpectedUnsigned`). -/
def deserialize_u64 (de : De) : Except Error (Int × De) := do
  let (n, de') ← de.parse_number
  match n with
  | .integer num =>
    if num < 0 then .error .expectedUnsigned else .ok (num, de')
  | .float num =>
    if num.den = 1 then
      if num < 0 then .error .expectedUnsigned else .ok (num.num, de')
    else .error .expectedInteger

/-- Embedding of `deserialize_f64` (`de.rs` lines 403-411). -/
def deserialize_f64 (de : De) : Except Error (Rat × De) := do
  let (n, de') ← de.parse_number
  match n with
  | .integer num => .ok (mkRat num 1, de')
  | .float num => .ok (num, de')

/-- Embedding of `deserialize_str` (`de.rs` lines 423-431): parse a
delimited string and unescape it; the `Cow` records whether the source
would call `visit_string` (owned) or `visit_borrowed_str` (borrowed). -/
def deserialize_str (de : De) : Except Error (Cow × De) := do
  let (s, de') ← de.parse_string
  .ok (unescape_str s, de')

/-- Embedding of `deserialize_char` (`de.rs` lines 440-454): the raw
delimited content (before unescaping) must be exactly one character;
zero or more than one is `ExpectedChar`. -/
def deserialize_char (de : De) : Except Error (Char × De) := do
  let (s, de') ← de.parse_string
  match s with
  | [] => .error .expectedChar
  | [c] => .ok (c, de')
  | _ => .error .expectedChar

end De

/-! ## The `object_query` crate: `Query` and path access (`value/src/access.rs`) -/

/-- Embedding of `object_query::Query`: either a key (the `Cow<str>` payload
is embedded as the character list) or an index with a from-the-back flag. -/
inductive Query where
  | indexQ (index : Nat) (fromLast : Bool)
  | keyQ (s : List Char)
deriving DecidableEq, Repr

/-- Constructor `Query::index` (forward index). -/
def Query.mkIndex (i : Nat) : Query := .indexQ i false

/-- Constructor `Query::index_from_last`. -/
def Query.index_from_last (i : Nat) : Query := .indexQ i true

/-- Constructor `Query::key`. -/
def Query.mkKey (s : List Char) : Query := .keyQ s

/-- Embedding of `value/src/key.rs` `enum Key`. -/
inductive Key where
  | bool (b : Bool)
  | number (n : PNumber)
  | string (s : List Char)
deriving DecidableEq, Repr

/-- Mathematical value of a `PNumber`, used for the source's cross-kind
number equality (`value/src/number.rs` `PartialEq`): an integer and a float
are equal when they denote the same value.  (The source compares after an
`i64 → f64` cast, which rounds above `2^53`; no claim exercises that range,
and the embedding compares exactly.) -/
def PNumber.toRat : PNumber → Rat
  | .integer n => mkRat n 1
  | .float q => q

/-- Equality of keys as used by the `BTreeMap<Key, _>` lookups
(`value/src/key.rs` derived `PartialEq` over `Number`'s custom one). -/
def key_eq : Key → Key → Bool
  | .bool a, .bool b => a = b
  | .number a, .number b => a.toRat = b.toRat
  | .string a, .string b => a = b
  | _, _ => false

/-- Embedding of `value/src/value.rs` `enum Value<U, T>`.  `BTreeMap`s are
embedded as association lists in key order with distinct keys; the external
`time` crate's datetime values (out of scope, spec section 1) are carried
abstractly as their formatted text.  An `Amount<U>` stores `Value::Number`
entries only (its `insert` API, `value/src/amount.rs`), so it is embedded
as a unit-to-number association. -/
inductive Value (U T : Type) where
  | null
  | bool (b : Bool)
  | number (n : PNumber)
  | amount (amt : List (U × PNumber))
  | string (s : List Char)
  | dateTime (d : List Char)
  | date (d : List Char)
  | time (t : List Char)
  | array (a : List (Value U T))
  | object (m : List (Key × Value U T))
  | custom (t : T)

/-- Arithmetic panic of the embedding: a Rust `usize` subtraction whose
result would be negative ("attempt to subtract with overflow"; with
overflow checks disabled it instead wraps modulo `2^64`). -/
inductive UsizePanic where
  | subOverflow
deriving DecidableEq, Repr

/-- Checked Rust `usize` subtraction. -/
def usize_sub (a b : Nat) : Except UsizePanic Nat :=
  if b ≤ a then .ok (a - b) else .error .subOverflow

/-- Association-list lookup with an explicit key equality, embedding
`BTreeMap::get`. -/
def mapGetBy (eq : K → K → Bool) (m : List (K × V)) (k : K) : Option V :=
  (m.find? (fun p => eq p.1 k)).map (fun p => p.2)

/-- Embedding of `access_next` (`value/src/access.rs` lines 11-52).  The
`Amount` arm parses the key as a unit via the caller-supplied `FromStr`
embedding `parseU` and returns the stored number as a `Value::Number` view
(the source's `cast_unit`/`cast_custom` transmutes).  The `Array` arm with
`from_last` computes `array.len() - 1 - index` in `usize`; both
subtractions are embedded checked, surfacing the underflow. -/
def access_next (parseU : List Char → Option U) (uEq : U → U → Bool) :
    Value U T → Query → Except UsizePanic (Option (Value U T))
  | .null, _ => .ok none
  | .bool _, _ => .ok none
  | .number _, _ => .ok none
  | .string _, _ => .ok none
  | .dateTime _, _ => .ok none
  | .date _, _ => .ok none
  | .time _, _ => .ok none
  | .amount amt, q =>
    match q with
    | .indexQ _ _ => .ok none
    | .keyQ k =>
      match parseU k with
      | some unit => .ok ((mapGetBy uEq amt unit).map (fun n => .number n))
      | none => .ok none
  | .array arr, q =>
    match q with
    | .indexQ index fromLast =>
      if fromLast then do
        let i1 ← usize_sub arr.length 1
        let i ← usize_sub i1 index
        .ok (arr.get? i)
      else .ok (arr.get? index)
    | .keyQ _ => .ok none
  | .object m, q =>
    match q with
    | .indexQ index fromLast =>
      if fromLast then .ok none
      else .ok (mapGetBy key_eq m (Key.number (.integer (index : Int))))
    | .keyQ k => .ok (mapGetBy key_eq m (Key.string k))
  | .custom _, _ => .ok none

/-- Embedding of `access_next_mut` (`value/src/access.rs` lines 61-105):
the same lookup logic as `access_next` (line 84 binds the underflowing
`array.len() - 1 - index` before `get_mut`); the embedding returns the
child that the mutable reference would point at. -/
def access_next_mut (parseU : List Char → Option U) (uEq : U → U → Bool) :
    Value U T → Query → Except UsizePanic (Option (Value U T))
  | .null, _ => .ok none
  | .bool _, _ => .ok none
  | .number _, _ => .ok none
  | .string _, _ => .ok none
  | .dateTime _, _ => .ok none
  | .date _, _ => .ok none
  | .time _, _ => .ok none
  | .amount amt, q =>
    match q with
    | .indexQ _ _ => .ok none
    | .keyQ k =>
      match parseU k with
      | some unit => .ok ((mapGetBy uEq amt unit).map (fun n => .number n))
      | none => .ok none
  | .array arr, q =>
    match q with
    | .indexQ index fromLast =>
      if fromLast then do
        let i1 ← usize_sub arr.length 1
        let i ← usize_sub i1 index
        .ok (arr.get? i)
      else .ok (arr.get? index)
    | .keyQ _ => .ok none
  | .object m, q =>
    match q with
    | .indexQ index fromLast =>
      if fromLast then .ok none
      else .ok (mapGetBy key_eq m (Key.number (.integer (index : Int))))
    | .keyQ k => .ok (mapGetBy key_eq m (Key.string k))
  | .custom _, _ => .ok none

/-! ## The NLOQ deserializer (`nloq/src/de.rs`) -/

/-- Suffix test, embedding Rust `str::ends_with`. -/
def ends_with (s t : List Char) : Bool :=
  decide (t.length ≤ s.length) && decide (s.drop (s.length - t.length) = t)

/-- Embedding of `parse_index` (`nloq/src/de.rs` lines 52-80): a digit
ordinal must start with 1-9 and end in an English ordinal suffix; otherwise
the word ordinals first..twelfth.  (`usize` parsing of the digit prefix is
`digitsToNat?` with the 64-bit bound.) -/
def parse_index (s : List Char) : Option Nat :=
  match s with
  | [] => none
  | c :: _ =>
    if Char.ofNat 49 ≤ c ∧ c ≤ Char.ofNat 57 then
      if ends_with s "th".data ∨ ends_with s "st".data ∨
          ends_with s "rd".data ∨ ends_with s "nd".data then
        match digitsToNat? (s.take (s.length - 2)) with
        | some n => if n ≤ 2 ^ 64 - 1 then some n else none
        | none => none
      else none
    else
      if s = "first".data then some 1
      else if s = "second".data then some 2
      else if s = "third".data then some 3
      else if s = "fourth".data then some 4
      else if s = "fifth".data then some 5
      else if s = "sixth".data then some 6
      else if s = "seventh".data then some 7
      else if s = "eighth".data then some 8
      else if s = "ninth".data then some 9
      else if s = "tenth".data then some 10
      else if s = "eleventh".data then some 11
      else if s = "twelfth".data then some 12
      else none

/-- Embedding of the NLOQ `Deserializer` state (`nloq/src/de.rs` lines
6-10). -/
structure NloqDe where
  src : List Char
  first : Bool
  index : Nat
deriving DecidableEq, Repr

namespace NloqDe

/-- Embedding of `Deserializer::from_str` (`nloq/src/de.rs` lines 14-20). -/
def fromStr (s : List Char) : NloqDe := ⟨s, true, 0⟩

/-- Embedding of `rest` (`nloq/src/de.rs` lines 47-49). -/
def rest (d : NloqDe) : List Char := d.src.drop d.index

/-- Embedding of the advancing `parse_next` (`nloq/src/de.rs` lines
32-39): `None` leaves the cursor untouched. -/
def parseNext (d : NloqDe) : Option (Parsed × NloqDe) :=
  match Nlsd.parse_next d.rest with
  | .ok (_, parsed, rem) =>
    some (parsed, { d with index := d.index + (d.rest.length - rem.length) })
  | .error _ => none

/-- Embedding of `rollback` (`nloq/src/de.rs` lines 41-43). -/
def rollback (d : NloqDe) (index : Nat) : NloqDe := { d with index := index }

end NloqDe

/-- Resolution of a parsed NLOQ step identifier shared by several arms of
`Iterator::next`: a token identifier falls back to a key (rolling back to
just after it), a string is a key, a number aborts the step (rolling back
to the step start).  Mirrors the repeated
`match identifier { Token(key) => .. Str(key) => .. Number(_) => .. }`
blocks of `nloq/src/de.rs` lines 136-151, 154-169, 171-195 and 196-212;
`lastFirst` is true only in the final block (line 208), where the source
also clears `first` on the number arm. -/
def nloq_ident_fallback (d : NloqDe) (identifier : Parsed)
    (startIndex identifierIndex : Nat) (lastFirst : Bool) :
    Option Query × NloqDe :=
  match identifier with
  | .token key =>
    (some (.keyQ key), { d with first := false, index := identifierIndex })
  | .str key =>
    (some (.keyQ key), { d with first := false, index := identifierIndex })
  | .number _ =>
    if lastFirst then (none, { d with first := false, index := startIndex })
    else (none, { d with index := startIndex })

/-- Embedding of `Iterator::next` for the NLOQ deserializer
(`nloq/src/de.rs` lines 85-214).  Returns the emitted step (in surface
order) together with the updated state; `none` is the iterator's `None`,
with the cursor rolled back exactly as the source leaves it. -/
def nloq_next (d0 : NloqDe) : Option Query × NloqDe :=
  let startIndex := d0.index
  let step1 : Option NloqDe :=
    if d0.first then some d0
    else
      match d0.parseNext with
      | some (.token t, d1) => if t = kwOF then some d1 else none
      | _ => none
  match step1 with
  | none => (none, d0.rollback startIndex)
  | some d1 =>
    match d1.parseNext with
    | some (.token t, d2) =>
      if t = kwTHE then
        match d2.parseNext with
        | some (identifier, d3) =>
          let identifierIndex := d3.index
          match d3.parseNext with
          | some (.token t4, d4) =>
            if t4 = "to".data then
              match d4.parseNext with
              | some (.token t5, d5) =>
                if t5 = "last".data then
                  match d5.parseNext with
                  | some (.token t6, d6) =>
                    if t6 = kwITEM then
                      match identifier with
                      | .token indexTok =>
                        match parse_index indexTok with
                        | some index =>
                          (some (.indexQ (index - 1) true), { d6 with first := false })
                        | none =>
                          (some (.keyQ indexTok),
                            { d6 with first := false, index := identifierIndex })
                      | .str key =>
                        (some (.keyQ key),
                          { d6 with first := false, index := identifierIndex })
                      | .number _ => (none, d6.rollback startIndex)
                    else nloq_ident_fallback d6 identifier startIndex identifierIndex false
                  | _ => nloq_ident_fallback d5 identifier startIndex identifierIndex false
                else nloq_ident_fallback d5 identifier startIndex identifierIndex false
              | _ => nloq_ident_fallback d4 identifier startIndex identifierIndex false
            else if t4 = kwITEM then
              match identifier with
              | .token indexTok =>
                if indexTok = "last".data then
                  (some (.indexQ 0 true), { d4 with first := false })
                else
                  match parse_index indexTok with
                  | some index => (some (.indexQ (index - 1) false), { d4 with first := false })
                  | none =>
                    (some (.keyQ indexTok),
                      { d4 with first := false, index := identifierIndex })
              | .str key =>
                (some (.keyQ key), { d4 with first := false, index := identifierIndex })
              | .number _ => (none, d4.rollback startIndex)
            else nloq_ident_fallback d4 identifier startIndex identifierIndex true
          | _ => nloq_ident_fallback d3 identifier startIndex identifierIndex true
        | none => (none, d1.rollback startIndex)
      else (none, d2.rollback startIndex)
    | some (_, d2) => (none, d2.rollback startIndex)
    | none => (none, d1.rollback startIndex)

/-- Loop of `Deserializer::query` (`nloq/src/de.rs` lines 24-30): drain the
iterator, pushing each step to the FRONT of the output.  The fuel bounds
the iteration (each emitted step strictly advances the cursor; the fuel
chosen by `NloqDe.query` is more than sufficient and both sides of the
claim theorem use the same loop). -/
def nloq_query_loop : Nat → NloqDe → List Query → List Query × NloqDe
  | 0, d, out => (out, d)
  | fuel + 1, d, out =>
    match nloq_next d with
    | (some q, d') => nloq_query_loop fuel d' (q :: out)
    | (none, d') => (out, d')

/-- Embedding of the client-visible `query()` (`nloq/src/de.rs` lines
24-30). -/
def NloqDe.query (d : NloqDe) : List Query × NloqDe :=
  nloq_query_loop (d.src.length + 1) d []

/-- The iterator's emission sequence in surface order (the successive
results of `Iterator::next`), with the same fuel as `NloqDe.query`. -/
def nloq_steps_loop : Nat → NloqDe → List Query × NloqDe
  | 0, d => ([], d)
  | fuel + 1, d =>
    match nloq_next d with
    | (some q, d') =>
      let (qs, d'') := nloq_steps_loop fuel d'
      (q :: qs, d'')
    | (none, d') => ([], d')

/-- Surface-order step sequence of a sentence. -/
def nloq_steps (d : NloqDe) : List Query :=
  (nloq_steps_loop (d.src.length + 1) d).1

/-- Embedding of `nloq::from_str` (`nloq/src/lib.rs` lines 22-25). -/
def nloq_from_str (s : List Char) : List Query :=
  (NloqDe.query (NloqDe.fromStr s)).1

/-! ## The NLSD serializer (`src/ser.rs`) -/

/-- Embedding of `format_str` (`ser.rs` lines 65-67): wrap in backticks,
escaping each interior backtick as backslash-backtick. -/
def format_str (s : List Char) : List Char :=
  backtickC ::
    ((s.map (fun c => if c = backtickC then [backslashC, backtickC] else [c])).flatten
      ++ [backtickC])

/-- Trim of leading and trailing whitespace, embedding `str::trim`. -/
def trimCL (s : List Char) : List Char :=
  ((s.dropWhile Char.isWhitespace).reverse.dropWhile Char.isWhitespace).reverse

/-- Loop of `humanize` (`ser.rs` lines 69-103), carrying the output and the
pending uppercase-run buffer.  `char::to_lowercase` is embedded as
`Char.toLower` (they agree on ASCII, and `buffer.len()` is the byte length,
equal to the character count on ASCII). -/
def humanize_loop : List Char → List Char → List Char → List Char
  | [], out, buffer =>
    if buffer ≠ [] then out ++ [Char.ofNat 32] ++ buffer else out
  | ch :: rest, out, buffer =>
    if ch = Char.ofNat 95 then humanize_loop rest (out ++ [Char.ofNat 32]) buffer
    else if ch.isWhitespace then humanize_loop rest (out ++ [ch]) buffer
    else if ch.isUpper then humanize_loop rest out (buffer ++ [ch])
    else if buffer.length > 2 then
      humanize_loop rest
        (out ++ [Char.ofNat 32] ++ buffer.dropLast ++ [Char.ofNat 32]
          ++ (buffer.getLast?.map Char.toLower).toList ++ [ch]) []
    else if buffer ≠ [] then
      humanize_loop rest
        (out ++ (buffer.map (fun b => [Char.ofNat 32, b.toLower])).flatten ++ [ch]) []
    else humanize_loop rest (out ++ [ch]) buffer

/-- Embedding of `humanize` (`ser.rs` lines 69-103). -/
def humanize (s : List Char) : List Char :=
  trimCL (humanize_loop s [] [])

/-- Embedding of `current_scope` (`ser.rs` lines 52-54): the context joined
with single spaces. -/
def current_scope (ctx : List (List Char)) : List Char :=
  List.intercalate [Char.ofNat 32] ctx

/-- Embedding of `parent_scope` (`ser.rs` lines 56-62): the context without
its last entry, joined with single spaces; empty context gives the empty
string. -/
def parent_scope (ctx : List (List Char)) : List Char :=
  if ctx = [] then [] else List.intercalate [Char.ofNat 32] ctx.dropLast

/-- Embedding of `push_named_context` (`ser.rs` lines 28-34). -/
def push_named_context (ctx : List (List Char)) (name : List Char) :
    List (List Char) :=
  if ctx = [] then ctx ++ ["the ".data ++ humanize name] else ctx ++ [humanize name]

/-- Embedding of `push_list_context` (`ser.rs` lines 36-42). -/
def push_list_context (ctx : List (List Char)) : List (List Char) :=
  if ctx = [] then ctx ++ ["the list".data] else ctx ++ ["list".data]

/-- Embedding of `push_object_context` (`ser.rs` lines 44-50). -/
def push_object_context (ctx : List (List Char)) : List (List Char) :=
  if ctx = [] then ctx ++ ["the object".data] else ctx ++ ["object".data]

/-- Prefix test, embedding Rust `str::starts_with`. -/
def starts_with (s t : List Char) : Bool :=
  decide (s.take t.length = t)

/-- Values fed to the NLSD serializer, i.e. the serde data model as the
engine consumes it (`ser.rs`): primitives, sequences (`serialize_seq`,
`serialize_tuple` with `name = none`; `serialize_tuple_struct`,
`serialize_tuple_variant` with a name), maps (`serialize_map` with
`name = none`; `serialize_struct`, `serialize_struct_variant` with a name;
struct field keys are the `str` serialization of the field name, exactly as
`the_key` receives them), unit structs/variants, and newtype variants.
Floats are not included (their `Display` formatting is exercised by no
claim); a `char` serializes as its one-character string (`serialize_char`,
`ser.rs` lines 196-198), covered by `str`. -/
inductive RVal where
  | int (n : Int)
  | bool (b : Bool)
  | str (s : List Char)
  | unit
  | noneV
  | unitStruct (name : List Char)
  | newtypeVariant (variant : List Char) (v : RVal)
  | seq (name : Option (List Char)) (xs : List RVal)
  | map (name : Option (List Char)) (entries : List (RVal × RVal))

/-- Positivity of the size measure used for the serializer's termination. -/
theorem RVal.sizeOf_pos (v : RVal) : 0 < sizeOf v := by
  cases v <;> simp

/-- State of a serializer `Compound` (`ser.rs` lines 10-17, 105-116),
together with the serializer's scope context (`Serializer::context`), which
the compound's methods push to and pop from. -/
structure SerCompound where
  name : Option (List Char)
  index : Nat
  isLeaf : Bool
  isNewScope : Bool
  buffer : List Char
  ctx : List (List Char)
deriving DecidableEq, Repr

/-- Embedding of `Compound::new` (`ser.rs` lines 105-116), with the ambient
serializer context. -/
def SerCompound.new (name : Option (List Char)) (ctx : List (List Char)) :
    SerCompound :=
  ⟨name, 0, true, false, [], ctx⟩

/-- Embedding of `init_list` (`ser.rs` lines 304-312). -/
def SerCompound.init_list (st : SerCompound) : SerCompound :=
  if st.index = 0 then
    { st with ctx := match st.name with
        | some n => push_named_context st.ctx n
        | none => push_list_context st.ctx }
  else st

/-- Embedding of `init_object` (`ser.rs` lines 314-322). -/
def SerCompound.init_object (st : SerCompound) : SerCompound :=
  if st.index = 0 then
    { st with ctx := match st.name with
        | some n => push_named_context st.ctx n
        | none => push_object_context st.ctx }
  else st

/-- Embedding of `an_item` (`ser.rs` lines 324-334): emit the item
introducer into the scratch buffer, bump the index and push the positional
context entry. -/
def SerCompound.an_item (st : SerCompound) : SerCompound :=
  { st with
    buffer := st.buffer
      ++ (if st.index = 0 then " where an ".data else " and another ".data)
      ++ "item ".data,
    index := st.index + 1,
    ctx := st.ctx ++ ["item ".data ++ (toString (st.index + 1)).data] }

/-- Embedding of `of_scope` (`ser.rs` lines 372-382): if the previous
sibling opened a new scope, emit `of <parent-scope>` and clear both flags
(recording that this compound is not a leaf). -/
def SerCompound.of_scope (st : SerCompound) : SerCompound :=
  if st.isNewScope then
    { st with
      buffer := st.buffer ++ "of ".data ++ format_str (parent_scope st.ctx)
        ++ [Char.ofNat 32],
      isNewScope := false,
      isLeaf := false }
  else st

/-- Embedding of `is` (`ser.rs` lines 384-387). -/
def SerCompound.isKw (st : SerCompound) : SerCompound :=
  { st with buffer := st.buffer ++ "is ".data }

/-- Embedding of `the_list` (`ser.rs` lines 404-420): the opening phrase,
`empty` when no element was emitted. -/
def SerCompound.the_list (st : SerCompound) : List Char :=
  let nm := match st.name with
    | some n => format_str (humanize n)
    | none => "list".data
  if st.index > 0 then "the ".data ++ nm else "the empty ".data ++ nm

/-- Embedding of `the_object` (`ser.rs` lines 422-438). -/
def SerCompound.the_object (st : SerCompound) : List Char :=
  let nm := match st.name with
    | some n => format_str (humanize n)
    | none => "object".data
  if st.index > 0 then "the ".data ++ nm else "the empty ".data ++ nm

/-- Embedding of `contents` (`ser.rs` lines 440-449): when some child
introduced its own scope (`!is_leaf`), emit `henceforth <current-scope>`
between the opening phrase and the buffered children. -/
def SerCompound.contents (st : SerCompound) : List Char :=
  (if ¬ st.isLeaf then
    " henceforth ".data ++ format_str (current_scope st.ctx)
  else []) ++ st.buffer

mutual

/-- Embedding of the NLSD value serializer (`ser.rs` `impl Serializer` and
the `Compound` trait impls), as a function from the ambient scope context
and the value to the emitted text and the final context.  Primitives write
their token; `serialize_newtype_variant` (lines 285-297) serializes the
inner value only, discarding the variant tag; sequences and maps run the
`Compound` state machine. -/
def encodeR (ctx : List (List Char)) : RVal → Except Error (List Char × List (List Char))
  | .int n => .ok ((toString n).data, ctx)
  | .bool b => .ok ((if b then "true" else "false").data, ctx)
  | .str s => .ok (format_str s, ctx)
  | .unit => .ok ("empty".data, ctx)
  | .noneV => .ok ("nothing".data, ctx)
  | .unitStruct name => .ok (format_str (humanize name), ctx)
  | .newtypeVariant _ v => encodeR ctx v
  | .seq name xs => do
    let st ← encode_items (SerCompound.new name ctx) xs
    .ok (st.the_list ++ st.contents, st.ctx)
  | .map name es => do
    let st ← encode_entries (SerCompound.new name ctx) es
    .ok (st.the_object ++ st.contents, st.ctx)
termination_by v => (sizeOf v, 0)

/-- Fold of `SerializeSeq::serialize_element` over the elements. -/
def encode_items (st : SerCompound) : List RVal → Except Error SerCompound
  | [] => .ok st
  | x :: xs => do
    let st' ← encode_element st x
    encode_items st' xs
termination_by xs => (sizeOf xs, 2)

/-- Embedding of `SerializeSeq::serialize_element` (`ser.rs` lines
459-469): `init_list`, `an_item`, `of_scope`, `is`, then `value`
(`ser.rs` lines 389-402) — the child serializes under the pushed context;
if its final context is longer, it opened a scope; the positional entry is
then popped. -/
def encode_element (st : SerCompound) (x : RVal) : Except Error SerCompound := do
  let st1 := (st.init_list.an_item.of_scope).isKw
  let (out, ctx') ← encodeR st1.ctx x
  .ok { st1 with
    buffer := st1.buffer ++ out,
    isNewScope := if st1.ctx.length < ctx'.length then true else st1.isNewScope,
    ctx := st1.ctx.dropLast }
termination_by (sizeOf x, 1)

/-- Fold of `SerializeMap::serialize_key`/`serialize_value` (equally
`SerializeStruct::serialize_field`) over the entries. -/
def encode_entries (st : SerCompound) : List (RVal × RVal) → Except Error SerCompound
  | [] => .ok st
  | e :: es => do
    let st' ← encode_entry st e.1 e.2
    encode_entries st' es
termination_by es => (sizeOf es, 2)
decreasing_by
  all_goals simp_wf
  all_goals try (apply Prod.Lex.left)
  all_goals try (obtain ⟨a, b⟩ := e)
  all_goals try simp
  all_goals try omega

/-- Embedding of one map/struct entry: `init_object` then `the_key`
(`ser.rs` lines 336-370: serialize the key with a fresh serializer,
humanize it, require a backtick-delimited form (else `UnexpectedKeyType`),
strip the backticks, emit it with `the` unless it starts with the verb
`is`, and push it on the context), then `of_scope`, `is` and `value`. -/
def encode_entry (st : SerCompound) (k v : RVal) : Except Error SerCompound := do
  let st0 := st.init_object
  let buf1 := st0.buffer ++ (if st0.index = 0 then " where ".data else " and ".data)
  let (serName, _) ← encodeR [] k
  let nameH := humanize serName
  if nameH.head? = some backtickC ∧ ends_with nameH [backtickC] ∧ nameH.length > 1 then
    let name := (nameH.drop 1).dropLast
    let buf2 := buf1 ++
      (if starts_with name "is ".data then format_str name ++ [Char.ofNat 32]
       else "the ".data ++ format_str name ++ [Char.ofNat 32])
    let st1 : SerCompound :=
      { st0 with
        buffer := buf2,
        index := st0.index + 1,
        ctx := st0.ctx ++ [name] }
    let st2 := st1.of_scope.isKw
    let (out, ctx') ← encodeR st2.ctx v
    .ok { st2 with
      buffer := st2.buffer ++ out,
      isNewScope := if st2.ctx.length < ctx'.length then true else st2.isNewScope,
      ctx := st2.ctx.dropLast }
  else .error .unexpectedKeyType
termination_by (sizeOf k + sizeOf v, 1)
decreasing_by
  all_goals apply Prod.Lex.left
  · have := RVal.sizeOf_pos v; omega
  · have := RVal.sizeOf_pos k; omega

end

/-- Synthetic variant tag for `Value::Custom`.  Modelled from the spec: the
`format` module of the value crate that holds `CUSTOM_VARIANT_NAME` is not
among the sources; spec sections 4.5 and the glossary fix the tag as the
string `non standard object` (as does the repository's own test
`serialize_custom`). -/
def CUSTOM_VARIANT_NAME : List Char := "non standard object".data

/-- Synthetic variant tag for multi-unit amounts.  Modelled from the spec:
`AMOUNT_VARIANT_NAME` lives in the missing `format` module; spec section
4.5 fixes it as `amount`. -/
def AMOUNT_VARIANT_NAME : List Char := "amount".data

/-- Embedding of the `Custom` arm of `impl Serialize for Value`
(`value/src/ser.rs` line 66): the payload is emitted as a newtype variant
tagged `CUSTOM_VARIANT_NAME`; `inner` stands for the payload's own
serialization. -/
def value_custom_ser (inner : RVal) : RVal :=
  .newtypeVariant CUSTOM_VARIANT_NAME inner

/-- The encoding of a newtype variant that the spec prescribes (section
4.4: `the <variant> which is <value>`, section 4.5: Custom is tagged
`non standard object` followed by the inner value; matching the
repository's tests `serialize_custom` and `deserialize_newtype_struct`).
Modelled from the spec for comparison with the code's actual output. -/
def spec_newtype_variant_encoding (variant : List Char) (innerOut : List Char) :
    List Char :=
  "the ".data ++ format_str variant ++ " which is ".data ++ innerOut

/-! ## The NLSD compound decoder (`src/de.rs` `Compound`) and the default
`Value` decode (`value/src/de.rs` `ValueVisitor`, at `U = NoUnit`,
`T = NoCustom`, i.e. `SimpleValue`). -/

/-- Embedding of `de.rs` `enum CompoundKind` (lines 681-684). -/
inductive CompoundKind where
  | list
  | object
deriving DecidableEq, Repr

/-- Embedding of the decoder `Compound` state (`de.rs` lines 686-694). -/
structure DCompound where
  name : Option (List Char)
  scope : Option (List Char)
  kind : Option CompoundKind
  isEmpty : Bool
  first : Bool
  expectedKeys : Option (List (List Char))
deriving DecidableEq, Repr

namespace DCompound

/-- Embedding of `Compound::new` (`de.rs` lines 697-707). -/
def new : DCompound := ⟨none, none, none, false, true, none⟩

/-- Embedding of `Compound::new_with_expected` (`de.rs` lines 709-722). -/
def newWithExpected (expected : List (List Char)) : DCompound :=
  ⟨none, none, none, false, true, some expected⟩

/-- Embedding of `is_list` (`de.rs` lines 724-726). -/
def is_list (c : DCompound) : Bool :=
  c.isEmpty ∨ c.kind = some .list

/-- Embedding of `is_object` (`de.rs` lines 728-730). -/
def is_object (c : DCompound) : Bool :=
  c.isEmpty ∨ c.kind = some .object

/-- Embedding of `is_described` (`de.rs` lines 732-734). -/
def is_described (c : DCompound) : Bool :=
  c.kind.isSome ∨ c.isEmpty

/-- Embedding of `describe` (`de.rs` lines 736-790): consume `the`, an
optional `empty`, the descriptor (`list`/`object`/STRING name), an optional
`henceforth <scope>`, and — when not empty — `where`, inferring the kind
from a peek at the first entry when a STRING name left it open.  Note the
`henceforth` peek swallows peek errors (no `?` on line 760), while the
other two peeks propagate them. -/
def describe (c : DCompound) (de : De) : Except Error (DCompound × De) := do
  let (t, de) ← de.parse_token
  if t ≠ kwTHE then .error (.expectedKeyWord kwTHE)
  else do
  let (c, de) ←
    match de.peek_next with
    | .error e => .error e
    | .ok (.token t) =>
      if t = kwEMPTY then do
        let (_, de) ← de.parse_token
        pure ({ c with isEmpty := true }, de)
      else pure (c, de)
    | .ok _ => pure (c, de)
  let (p, de) ← de.parse_next
  let c ←
    match p with
    | .token t =>
      if t = kwLIST then pure { c with kind := some CompoundKind.list }
      else if t = kwOBJECT then pure { c with kind := some CompoundKind.object }
      else .error .expectedObjectDescriptor
    | .str name => pure { c with name := some name }
    | .number _ => .error .expectedObjectDescriptor
  let (c, de) ←
    match de.peek_next with
    | .ok (.token t) =>
      if t = kwHENCEFORTH then do
        let (_, de) ← de.parse_next
        let (p, de) ← de.parse_next
        match p with
        | .str s => pure ({ c with scope := some s }, de)
        | _ => .error .expectedString
      else pure (c, de)
    | _ => pure (c, de)
  if c.isEmpty then .ok (c, de)
  else do
    let (t, de) ← de.parse_token
    if t ≠ kwWHERE then .error (.expectedKeyWord kwWHERE)
    else do
    if c.kind = none then
      match ← de.peek_next with
      | .token t =>
        if t = kwAN then .ok ({ c with kind := some CompoundKind.list }, de)
        else if t = kwTHE ∨ t = kwTRUE ∨ t = kwFALSE ∨ t = kwON ∨ t = kwOFF ∨
            t = kwENABLED ∨ t = kwDISABLED ∨ t = kwEMPTY ∨ t = kwNOTHING then
          .ok ({ c with kind := some CompoundKind.object }, de)
        else .error (.expectedKeyWord kwTHE)
      | .str _ => .ok ({ c with kind := some CompoundKind.object }, de)
      | .number _ => .ok ({ c with kind := some CompoundKind.object }, de)
    else .ok (c, de)

end DCompound

/-- Embedding of `SeqAccess::next_element_seed` (`de.rs` lines 796-847),
generic in the element seed (the source's `seed.deserialize(&mut *self.de)`).
Describes the compound lazily; `empty` ends at once; a non-list errors.
After the item introducer, an `of <alias>` whose alias differs from this
compound's declared scope is `ShouldBeDeclaredEmpty` on the first entry and
otherwise rolls the cursor back to the entry start (`start_index`) and ends
the compound with `None`. -/
def next_element_seed (seed : De → Except Error (α × De))
    (c : DCompound) (de : De) : Except Error (Option α × DCompound × De) := do
  let (c, de) ←
    if ¬ c.is_described then c.describe de else pure (c, de)
  if c.isEmpty then .ok (none, c, de)
  else if ¬ c.is_list then .error .expectedListItem
  else do
  let startIndex := de.index
  let de ←
    if c.first then de.parse_and_expect_token kwAN
    else
      match de.parse_and_expect_token kwAND with
      | .ok de => de.parse_and_expect_token kwANOTHER
      | .error (.parse .unexpectedEof) => return (none, c, de)
      | .error e => .error e
  let de ← de.parse_and_expect_token kwITEM
  let de ←
    match ← de.peek_next with
    | .token t =>
      if t = kwOF then do
        let (_, de) ← de.parse_token
        let (scope, de) ← de.parse_string
        if c.scope ≠ some scope then
          if c.first then .error .shouldBeDeclaredEmpty
          else return (none, c, de.rollback startIndex)
        else pure de
      else pure de
    | _ => pure de
  let de ← de.parse_and_expect_token kwIS
  let (v, de) ← seed de
  .ok (some v, { c with first := false }, de)

/-- Embedding of `MapAccess::next_key_seed` (`de.rs` lines 852-912),
generic in the key seed (the source picks `MapExpectedKey` or `MapKey`
according to `expected_keys`; the caller passes the corresponding decoder).
The scope check mirrors `next_element_seed`: a foreign `of <alias>` is
`ShouldBeDeclaredEmpty` on the first entry and otherwise rolls back to the
entry start and ends the compound. -/
def next_key_seed (seedK : De → Except Error (κ × De))
    (c : DCompound) (de : De) : Except Error (Option κ × DCompound × De) := do
  let (c, de) ←
    if ¬ c.is_described then c.describe de else pure (c, de)
  if c.isEmpty then .ok (none, c, de)
  else if ¬ c.is_object then .error .expectedObjectEntry
  else do
  let startIndex := de.index
  let de ←
    if ¬ c.first then
      match de.parse_and_expect_token kwAND with
      | .ok de => pure de
      | .error (.parse .unexpectedEof) => return (none, c, de)
      | .error e => .error e
    else pure de
  let de ←
    match ← de.peek_next with
    | .token t =>
      if t = kwTHE then do
        let (_, de) ← de.parse_token
        pure de
      else pure de
    | _ => pure de
  let (res, de) ← seedK de
  let de ←
    match ← de.peek_next with
    | .token t =>
      if t = kwOF then do
        let (_, de) ← de.parse_token
        let (scope, de) ← de.parse_string
        if c.scope ≠ some scope then
          if c.first then .error .shouldBeDeclaredEmpty
          else return (none, c, de.rollback startIndex)
        else pure de
      else pure de
    | _ => pure de
  let de ← de.parse_and_expect_token kwIS
  .ok (some res, { c with first := false }, de)

/-- Embedding of `MapKey::deserialize_any` (`de.rs` lines 611-625) driving
the `Key` visitor of `value/src/de.rs` (lines 192-242): booleans, numbers
and strings become the matching `Key`; `empty`/`nothing` dispatch to
`deserialize_unit`, whose `visit_unit` the `KeyVisitor` does not implement
(serde's default errors with an invalid-type message, abbreviated here);
any other token is `ExpectedPrimitiveMapKey`. -/
def map_key_any (de : De) : Except Error (Key × De) := do
  match ← de.peek_next with
  | .token t =>
    if t = kwTRUE ∨ t = kwFALSE ∨ t = kwON ∨ t = kwOFF ∨
        t = kwENABLED ∨ t = kwDISABLED then do
      let (b, de) ← de.deserialize_bool
      .ok (.bool b, de)
    else if t = kwEMPTY ∨ t = kwNOTHING then do
      let (_, _) ← de.deserialize_unit
      .error (.custom "invalid type: unit value".data)
    else .error .expectedPrimitiveMapKey
  | .number (.float _) => do
    let (q, de) ← de.deserialize_f64
    .ok (.number (.float q), de)
  | .number (.integer _) => do
    let (n, de) ← de.deserialize_i64
    .ok (.number (.integer n), de)
  | .str _ => do
    let (cow, de) ← de.deserialize_str
    .ok (.string cow.chars, de)

/-- Embedding of `MapExpectedKey::deserialize_str` (`de.rs` lines 652-661):
parse the string, `dehumanize_match` its unescaped form against the
expected keys, returning the matched static name, and otherwise the
snake-cased raw string (for the visitor to reject). -/
def map_expected_key (expected : List (List Char)) (de : De) :
    Except Error (List Char × De) := do
  let (s, de) ← de.parse_string
  match dehumanize_match (unescape_str s).chars expected with
  | some st => .ok (st, de)
  | none => .ok (dehumanize_snake s, de)

/-- Lexicographic order on character lists, embedding the byte order Rust's
`String: Ord` gives ASCII strings. -/
def charsLe : List Char → List Char → Bool
  | [], _ => true
  | _ :: _, [] => false
  | a :: as, b :: bs => if a = b then charsLe as bs else decide (a < b)

/-- Key order of the value model's `BTreeMap<Key, _>` (`value/src/key.rs`
derived `Ord`: `Bool < Number < String`, numbers compared by value as in
`value/src/number.rs`). -/
def key_le : Key → Key → Bool
  | .bool a, .bool b => !a || b
  | .bool _, _ => true
  | .number _, .bool _ => false
  | .number a, .number b => decide (a.toRat ≤ b.toRat)
  | .number _, .string _ => true
  | .string a, .string b => charsLe a b
  | .string _, _ => false

/-- Embedding of `BTreeMap::insert` on the association-list model: replace
the value under an existing (order-)equal key, else insert in order. -/
def btree_insert : List (Key × V) → Key → V → List (Key × V)
  | [], k, v => [(k, v)]
  | (k0, v0) :: rest, k, v =>
    if key_eq k k0 then (k0, v) :: rest
    else if key_le k k0 then (k, v) :: (k0, v0) :: rest
    else (k0, v0) :: btree_insert rest k v

/-- The default decoded value type: `SimpleValue = Value<NoUnit, NoCustom>`
(`value/src/simple.rs`), with the zero-sized `NoUnit`/`NoCustom` both
embedded as `Unit`. -/
abbrev SValue := Value Unit Unit

section ValueDecode

/- The external datetime parsers (`PrimitiveDateTime::parse`,
`Date::parse`, `Time::parse` of the `time` crate against the three fixed
formats) consulted by `ValueVisitor::visit_str` (`value/src/de.rs` lines
94-119).  The spec (section 1) treats the datetime library as an opaque
external collaborator, so the decoder is parameterized by the three
recognizers; every theorem below holds for all of them. -/
variable (dtP dP tP : List Char → Bool)

/-- Embedding of `ValueVisitor::visit_str` (`value/src/de.rs` lines
94-119) at `U = NoUnit`: try the three datetime formats; the amount branch
needs `unit.parse::<NoUnit>()` to succeed, which never happens
(`unit.rs`: `NoUnit::from_str` always errs), so every remaining string is
`Value::String`. -/
def visit_str_sv (v : List Char) : SValue :=
  if dtP v then .dateTime v
  else if dP v then .date v
  else if tP v then .time v
  else .string v

mutual

/-- Embedding of `deserialize_any` (`de.rs` lines 172-212) driving the
`ValueVisitor` (`value/src/de.rs`), i.e. of
`SimpleValue::deserialize ∘ Deserializer::from_str`.  The fuel bounds the
recursion depth and loop lengths; the entry point supplies more fuel than
any input can consume, except for the source's genuinely unbounded
self-recursion (`deserialize_newtype_struct` → `visit_newtype_struct` →
`deserialize_any` at the same rolled-back cursor), which the fuel turns
into an error where the source overflows the stack. -/
def de_any : Nat → De → Except Error (SValue × De)
  | 0, _ => .error (.custom "recursion limit".data)
  | fuel + 1, de => do
    match ← de.peek_next with
    | .token t =>
      if t = kwTRUE ∨ t = kwFALSE ∨ t = kwON ∨ t = kwOFF ∨
          t = kwENABLED ∨ t = kwDISABLED then do
        let (b, de) ← de.deserialize_bool
        .ok (.bool b, de)
      else if t = kwEMPTY ∨ t = kwNOTHING then do
        let (_, de) ← de.deserialize_unit
        .ok (.null, de)
      else if t = kwTHE then do
        let startIndex := de.index
        let (_, de1) ← de.parse_token
        let (p, de2) ← de1.parse_next
        match p with
        | .str _ => do
          let (t2, _) ← de2.parse_token
          if t2 = kwWHICH then
            de_any fuel (de.rollback startIndex)
          else
            de_enum fuel (de.rollback startIndex)
        | _ => do
          let (c, de') ← DCompound.new.describe (de.rollback startIndex)
          if c.is_list then visit_seq_loop fuel c de' []
          else visit_map_loop fuel false c de' []
      else .error (.expectedKeyWord kwTHE)
    | .number (.float _) => do
      let (q, de) ← de.deserialize_f64
      .ok (.number (.float q), de)
    | .number (.integer _) => do
      let (n, de) ← de.deserialize_i64
      .ok (.number (.integer n), de)
    | .str _ => do
      let (cow, de) ← de.deserialize_str
      .ok (visit_str_sv dtP dP tP cow.chars, de)

/-- Embedding of `deserialize_enum` (`de.rs` lines 564-578) driving
`ValueVisitor::visit_enum` (`value/src/de.rs` lines 161-175) at
`T = NoCustom`: read the variant name through `MapExpectedKey` with no
expected keys (so it arrives snake-cased), then dispatch — the `amount` tag
re-reads the compound as an amount map, the custom tag's
`newtype_variant::<NoCustom>` always fails (`unit.rs`), and any other name
re-reads the compound as an object (`struct_variant` with no fields, after
rolling back to the variant start).  A bare string is a unit variant
(`UnitVariantAccess`), on which the value visitor's `struct_variant` /
`newtype_variant` calls all fail with `ExpectedUnitVariant`. -/
def de_enum : Nat → De → Except Error (SValue × De)
  | 0, _ => .error (.custom "recursion limit".data)
  | fuel + 1, de => do
    match ← de.peek_next with
    | .token t =>
      if t = kwTHE then do
        let startIndex := de.index
        let de ← de.parse_and_expect_token kwTHE
        let (key, de2) ← map_expected_key [] de
        if key = AMOUNT_VARIANT_NAME then
          visit_map_loop fuel true (DCompound.newWithExpected [])
            (de2.rollback startIndex) []
        else if key = CUSTOM_VARIANT_NAME then do
          let de3 ← de2.parse_and_expect_token kwWHICH
          let _ ← de3.parse_and_expect_token kwIS
          .error (.custom "no custom object present".data)
        else
          visit_map_loop fuel false (DCompound.newWithExpected [])
            (de2.rollback startIndex) []
      else .error (.expectedKeyWord kwTHE)
    | .str _ => do
      let (_, _) ← map_expected_key [] de
      .error .expectedUnitVariant
    | _ => .error (.expectedKeyWord kwTHE)

/-- Embedding of `ValueVisitor::visit_seq` (`value/src/de.rs` lines
130-139): drain `next_element_seed` with the element seed
`SimpleValue::deserialize`, collecting into a `Vec`. -/
def visit_seq_loop : Nat → DCompound → De → List SValue →
    Except Error (SValue × De)
  | 0, _, _, _ => .error (.custom "recursion limit".data)
  | fuel + 1, c, de, acc => do
    match ← next_element_seed (de_any fuel) c de with
    | (some v, c, de) => visit_seq_loop fuel c de (acc ++ [v])
    | (none, _, de) => .ok (.array acc, de)

/-- Embedding of `ValueVisitor::visit_map` (`value/src/de.rs` lines
141-159): without the amount flag, drain `next_key_seed` /
`next_value_seed` into a `BTreeMap<Key, SimpleValue>` (the key seed is
`MapExpectedKey` — yielding `Key::String` through the `KeyVisitor` — when
the compound carries expected keys, else `MapKey`); with the amount flag,
keys decode as `String`s and the first entry's
`key.parse::<NoUnit>()` fails, surfacing `Error::custom("")`
(`unit.rs`: `NoUnit::from_str` errs with the empty message), while zero
entries give the empty `Value::Amount`. -/
def visit_map_loop : Nat → Bool → DCompound → De → List (Key × SValue) →
    Except Error (SValue × De)
  | 0, _, _, _, _ => .error (.custom "recursion limit".data)
  | fuel + 1, expectingAmount, c, de, acc => do
    if expectingAmount then do
      match ← next_key_seed (map_expected_key
          (c.expectedKeys.getD [])) c de with
      | (some _, c', de) => do
        let (_, _) ← de_any fuel de
        let _ := c'
        .error (.custom "".data)
      | (none, _, de) => .ok (.amount [], de)
    else do
      let keySeed : De → Except Error (Key × De) :=
        match c.expectedKeys with
        | some expected => fun de => do
          let (s, de) ← map_expected_key expected de
          .ok (Key.string s, de)
        | none => map_key_any
      match ← next_key_seed keySeed c de with
      | (some k, c, de) => do
        let (v, de) ← de_any fuel de
        visit_map_loop fuel expectingAmount c de (btree_insert acc k v)
      | (none, _, de) => .ok (.object acc, de)

end

/-- Embedding of `from_str::<SimpleValue>` (`src/helpers.rs` lines 7-13
composed with `value/src/de.rs` `impl Deserialize for Value`): run the
value decode from a fresh cursor with ample fuel, returning the decoded
value (the helper drops the final cursor). -/
def from_str_simple_value (s : List Char) : Except Error SValue :=
  (de_any dtP dP tP (s.length + 1) ⟨s, 0⟩).map (fun p => p.1)

end ValueDecode

/-! ## Theorems -/

/-- Reduction of an `Except` bind on a success value, used to unfold the
monadic embeddings in proofs. -/
theorem except_bind_ok {ε α β : Type _} (a : α) (f : α → Except ε β) :
    (do let x ← (Except.ok a : Except ε α); f x) = f a := rfl

/-- Reduction of an `Except` bind on an error, used to unfold the monadic
embeddings in proofs. -/
theorem except_bind_error {ε α β : Type _} (e : ε) (f : α → Except ε β) :
    (do let x ← (Except.error e : Except ε α); f x) = .error e := rfl

/-- The query loop accumulates the emission sequence of `Iterator::next` in
reverse (each step is pushed to the front of the output). -/
theorem nloq_query_loop_eq (fuel : Nat) :
    ∀ (d : NloqDe) (acc : List Query),
      nloq_query_loop fuel d acc =
        ((nloq_steps_loop fuel d).1.reverse ++ acc, (nloq_steps_loop fuel d).2) := by
  induction fuel with
  | zero => intro d acc; simp [nloq_query_loop, nloq_steps_loop]
  | succ n ih =>
    intro d acc
    simp only [nloq_query_loop, nloq_steps_loop]
    rcases h : nloq_next d with ⟨q, d'⟩
    cases q with
    | none => simp
    | some q => simp [ih]

/-- C6: for every NLOQ sentence, the `Vec<Query>` returned by the
client-visible `query()` method is the reverse of the sequence of steps the
iterator emits in surface order; in particular `the a of the b` yields
`[Key("b"), Key("a")]`, outermost container first. -/
theorem nloq_query_reverses_steps :
    (∀ d : NloqDe, (NloqDe.query d).1 = (nloq_steps d).reverse) ∧
    nloq_from_str "the a of the b".data =
      [Query.keyQ "b".data, Query.keyQ "a".data] := by
  constructor
  · intro d
    simp [NloqDe.query, nloq_steps, nloq_query_loop_eq]
  · rfl

/-- C8: a number token decoded into an integer shape — an integer passes
through; an exactly integer-valued float is accepted (for the unsigned
width only when non-negative, else `ExpectedUnsigned`); a float with a
fractional part fails with `ExpectedInteger`; a negative integer fails the
unsigned width with `ExpectedUnsigned`. -/
theorem integer_shape_decoding (de de' : De) (n : PNumber)
    (h : de.parse_number = .ok (n, de')) :
    (∀ q : Rat, n = .float q → q.den = 1 →
      de.deserialize_i64 = .ok (q.num, de') ∧
      (0 ≤ q → de.deserialize_u64 = .ok (q.num, de')) ∧
      (q < 0 → de.deserialize_u64 = .error .expectedUnsigned)) ∧
    (∀ q : Rat, n = .float q → q.den ≠ 1 →
      de.deserialize_i64 = .error .expectedInteger ∧
      de.deserialize_u64 = .error .expectedInteger) ∧
    (∀ m : Int, n = .integer m → m < 0 →
      de.deserialize_u64 = .error .expectedUnsigned) ∧
    (∀ m : Int, n = .integer m →
      de.deserialize_i64 = .ok (m, de') ∧
      (0 ≤ m → de.deserialize_u64 = .ok (m, de'))) := by
  refine ⟨?_, ?_, ?_, ?_⟩
  · rintro q rfl hden
    refine ⟨?_, ?_, ?_⟩
    · simp [except_bind_ok, De.deserialize_i64, h, hden]
    · intro hq
      have : ¬ q < 0 := not_lt.mpr hq
      simp [except_bind_ok, De.deserialize_u64, h, hden, this]
    · intro hq
      simp [except_bind_ok, De.deserialize_u64, h, hden, hq]
  · rintro q rfl hden
    constructor
    · simp [except_bind_ok, De.deserialize_i64, h, hden]
    · simp [except_bind_ok, De.deserialize_u64, h, hden]
  · rintro m rfl hm
    simp [except_bind_ok, De.deserialize_u64, h, hm]
  · rintro m rfl
    constructor
    · simp [except_bind_ok, De.deserialize_i64, h]
    · intro hm
      have : ¬ m < 0 := not_lt.mpr hm
      simp [except_bind_ok, De.deserialize_u64, h, this]

/-- Witness for C8 at the spec's own examples: `1.0` is accepted by the
integer shape (value 1), `1.5` fails with `ExpectedInteger`, and `-1`
fails the unsigned shape with `ExpectedUnsigned`. -/
theorem integer_shape_decoding_witness :
    De.deserialize_i64 ⟨"1.0".data, 0⟩ = .ok (1, ⟨"1.0".data, 3⟩) ∧
    De.deserialize_i64 ⟨"1.5".data, 0⟩ = .error .expectedInteger ∧
    De.deserialize_u64 ⟨"1.5".data, 0⟩ = .error .expectedInteger ∧
    De.deserialize_u64 ⟨"-1".data, 0⟩ = .error .expectedUnsigned := by
  refine ⟨?_, ?_, ?_, ?_⟩
  · exact ((integer_shape_decoding ⟨"1.0".data, 0⟩ ⟨"1.0".data, 3⟩
      (.float (mkRat 1 1)) (by rfl)).1 (mkRat 1 1) rfl (by decide)).1
  · exact ((integer_shape_decoding ⟨"1.5".data, 0⟩ ⟨"1.5".data, 3⟩
      (.float (mkRat 3 2)) (by rfl)).2.1 (mkRat 3 2) rfl (by decide)).1
  · exact ((integer_shape_decoding ⟨"1.5".data, 0⟩ ⟨"1.5".data, 3⟩
      (.float (mkRat 3 2)) (by rfl)).2.1 (mkRat 3 2) rfl (by decide)).2
  · exact (integer_shape_decoding ⟨"-1".data, 0⟩ ⟨"-1".data, 2⟩
      (.integer (-1)) (by rfl)).2.2.1 (-1) rfl (by decide)

/-- C10: `deserialize_char` counts the characters of the raw delimited
content, before unescaping: a raw one-character literal is accepted and
that character passed to the visitor; any other raw length is
`ExpectedChar`, even when the unescaped content has exactly one
character. -/
theorem deserialize_char_counts_raw_chars (de de' : De) (s : List Char)
    (h : de.parse_string = .ok (s, de')) :
    (∀ c, s = [c] → de.deserialize_char = .ok (c, de')) ∧
    (s.length ≠ 1 → de.deserialize_char = .error .expectedChar) ∧
    (s.length ≠ 1 → (unescape_core s).length = 1 →
      de.deserialize_char = .error .expectedChar) := by
  refine ⟨?_, ?_, ?_⟩
  · rintro c rfl
    simp [except_bind_ok, De.deserialize_char, h]
  · intro hlen
    match s, hlen with
    | [], _ => simp [except_bind_ok, De.deserialize_char, h]
    | a :: b :: rest, _ => simp [except_bind_ok, De.deserialize_char, h]
    | [a], hl => exact absurd rfl hl
  · intro hlen _
    match s, hlen with
    | [], _ => simp [except_bind_ok, De.deserialize_char, h]
    | a :: b :: rest, _ => simp [except_bind_ok, De.deserialize_char, h]
    | [a], hl => exact absurd rfl hl

/-- Witness for C10: the escaped-backtick literal (raw content
backslash-backtick, two characters) is rejected with `ExpectedChar` even
though its unescaped content is the single backtick, while the raw
one-character literal is accepted. -/
theorem deserialize_char_counts_raw_chars_witness :
    De.parse_string ⟨[backtickC, backslashC, backtickC, backtickC], 0⟩ =
      .ok ([backslashC, backtickC], ⟨[backtickC, backslashC, backtickC, backtickC], 4⟩) ∧
    De.deserialize_char ⟨[backtickC, backslashC, backtickC, backtickC], 0⟩ =
      .error .expectedChar ∧
    unescape_core [backslashC, backtickC] = [backtickC] ∧
    De.deserialize_char ⟨[backtickC, Char.ofNat 97, backtickC], 0⟩ =
      .ok (Char.ofNat 97, ⟨[backtickC, Char.ofNat 97, backtickC], 3⟩) := by
  refine ⟨by rfl, ?_, by rfl, ?_⟩
  · exact (deserialize_char_counts_raw_chars
      ⟨[backtickC, backslashC, backtickC, backtickC], 0⟩
      ⟨[backtickC, backslashC, backtickC, backtickC], 4⟩
      [backslashC, backtickC] (by rfl)).2.2 (by decide) (by rfl)
  · exact (deserialize_char_counts_raw_chars
      ⟨[backtickC, Char.ofNat 97, backtickC], 0⟩
      ⟨[backtickC, Char.ofNat 97, backtickC], 3⟩
      [Char.ofNat 97] (by rfl)).1 (Char.ofNat 97) rfl

/-- C2 (the claim's behavior at the source): `Index{n, from_last = true}`
on an array of length `L ≤ n` reaches the `usize` computation
`array.len() - 1 - index`, whose subtraction underflows — for every such
`n`, including the empty array — in both `access_next` and
`access_next_mut`.  (With overflow checks enabled, the debug/test
configuration, this is a panic; the claim says `None` is returned.) -/
theorem access_next_from_last_underflow (arr : List (Value Unit Unit)) (n : Nat)
    (h : arr.length ≤ n) :
    access_next (fun _ => none) (fun _ _ => true) (Value.array arr)
        (.indexQ n true) = .error .subOverflow ∧
    access_next_mut (fun _ => none) (fun _ _ => true) (Value.array arr)
        (.indexQ n true) = .error .subOverflow := by
  match arr, h with
  | [], _ =>
    constructor <;>
      simp [access_next, access_next_mut, usize_sub, except_bind_error]
  | a :: rest, h =>
    have hlen : (1 : Nat) ≤ (a :: rest).length := by simp
    have h1 : ¬ n ≤ rest.length := by
      simp only [List.length_cons] at h
      omega
    constructor <;>
      simp [access_next, access_next_mut, usize_sub, except_bind_ok,
        except_bind_error, hlen, h1]

/-- Witness for C2's theorem at the spec's own boundary case: the empty
array with `Index{0, from_last = true}`. -/
theorem access_next_from_last_underflow_witness :
    access_next (fun _ => none) (fun _ _ => true)
        (Value.array ([] : List (Value Unit Unit))) (.indexQ 0 true) =
      .error .subOverflow ∧
    access_next_mut (fun _ => none) (fun _ _ => true)
        (Value.array ([] : List (Value Unit Unit))) (.indexQ 0 true) =
      .error .subOverflow :=
  access_next_from_last_underflow [] 0 (by decide)

/-- C5 (the claim's behavior at the source): `serialize_newtype_variant`
(`ser.rs` lines 285-297) ignores the variant tag and emits only the inner
value, so encoding `Value::Custom(1)` produces `1` — not the
`the non-standard-object tag which is 1` form the spec (and the
repository's own `serialize_custom` test) prescribe. -/
theorem serialize_newtype_variant_drops_tag :
    (∀ (ctx : List (List Char)) (variant : List Char) (v : RVal),
      encodeR ctx (.newtypeVariant variant v) = encodeR ctx v) ∧
    encodeR [] (value_custom_ser (.int 1)) = .ok ("1".data, []) ∧
    "1".data ≠ spec_newtype_variant_encoding CUSTOM_VARIANT_NAME "1".data := by
  refine ⟨?_, ?_, ?_⟩
  · intro ctx variant v
    simp [encodeR, value_custom_ser]
  · simp [encodeR, value_custom_ser]
    decide
  · decide

/-- Whether a character list contains the two-character sequence
backslash-backtick (left-to-right, as `String::replace` scans it). -/
def has_escaped_backtick : List Char → Bool
  | [] => false
  | [_] => false
  | a :: b :: rest =>
    (a = backslashC && b = backtickC) || has_escaped_backtick (b :: rest)

/-- Without a backslash-backtick occurrence, the replacement is the
identity. -/
theorem unescape_core_eq_self (s : List Char)
    (h : has_escaped_backtick s = false) : unescape_core s = s := by
  match s with
  | [] => rfl
  | [c] => rfl
  | a :: b :: rest =>
    simp only [has_escaped_backtick, Bool.or_eq_false_iff,
      Bool.and_eq_false_iff] at h
    obtain ⟨h1, h2⟩ := h
    have hcond : ¬ (a = backslashC ∧ b = backtickC) := by
      rcases h1 with h1 | h1 <;> simp [decide_eq_false_iff_not] at h1 <;>
        tauto
    rw [unescape_core, if_neg hcond, unescape_core_eq_self (b :: rest) h2]

/-- The replacement never lengthens the string. -/
theorem unescape_core_length_le (s : List Char) :
    (unescape_core s).length ≤ s.length := by
  match s with
  | [] => simp [unescape_core]
  | [c] => simp [unescape_core]
  | a :: b :: rest =>
    rw [unescape_core]
    by_cases hcond : a = backslashC ∧ b = backtickC
    · rw [if_pos hcond]
      have := unescape_core_length_le rest
      simp only [List.length_cons]
      omega
    · rw [if_neg hcond]
      have := unescape_core_length_le (b :: rest)
      simp only [List.length_cons] at this ⊢
      omega

/-- With a backslash-backtick occurrence, the replacement strictly
shortens the string (so it cannot equal the input). -/
theorem unescape_core_length_lt (s : List Char)
    (h : has_escaped_backtick s = true) :
    (unescape_core s).length < s.length := by
  match s with
  | [] => simp [has_escaped_backtick] at h
  | [c] => simp [has_escaped_backtick] at h
  | a :: b :: rest =>
    rw [unescape_core]
    by_cases hcond : a = backslashC ∧ b = backtickC
    · rw [if_pos hcond]
      have := unescape_core_length_le rest
      simp only [List.length_cons]
      omega
    · rw [if_neg hcond]
      have hb : has_escaped_backtick (b :: rest) = true := by
        simp only [has_escaped_backtick, Bool.or_eq_true] at h
        rcases h with h | h
        · exfalso
          simp only [Bool.and_eq_true, decide_eq_true_eq] at h
          exact hcond h
        · exact h
      have := unescape_core_length_lt (b :: rest) hb
      simp only [List.length_cons] at this ⊢
      omega

/-- C4 (amended): the deserializer's unescape step always replaces the
two-character sequence backslash-backtick with a backtick — regardless of
which delimiter recorded the string, so an escape of one of the other two
delimiters is preserved verbatim (it contains no backslash-backtick) — and
it returns the borrowed slice exactly when the raw content contains no
backslash-backtick, producing an owned (allocated) string otherwise;
`deserialize_str` applies this same unescape to every parsed string. -/
theorem unescape_backtick_escape_only :
    (∀ s : List Char,
      unescape_str s = Cow.borrowed s ↔ has_escaped_backtick s = false) ∧
    (∀ s : List Char, has_escaped_backtick s = true →
      unescape_str s = Cow.owned (unescape_core s) ∧
      (unescape_core s).length < s.length) ∧
    (∀ s : List Char, has_escaped_backtick s = false → unescape_core s = s) ∧
    (∀ (de : De) (s : List Char) (de1 : De),
      De.parse_string de = .ok (s, de1) →
      De.deserialize_str de = .ok (unescape_str s, de1)) := by
  have key : ∀ s : List Char,
      (unescape_core s = s) ↔ has_escaped_backtick s = false := by
    intro s
    constructor
    · intro he
      by_contra hne
      have ht : has_escaped_backtick s = true := by
        cases h : has_escaped_backtick s
        · exact absurd h hne
        · rfl
      have := unescape_core_length_lt s ht
      rw [he] at this
      omega
    · exact unescape_core_eq_self s
  refine ⟨?_, ?_, ?_, ?_⟩
  · intro s
    rw [← key s]
    unfold unescape_str
    by_cases h : unescape_core s = s
    · simp [h]
    · simp [h]
  · intro s h
    have hne : unescape_core s ≠ s := by
      intro he
      rw [(key s).mp he] at h
      cases h
    refine ⟨?_, unescape_core_length_lt s h⟩
    unfold unescape_str
    simp [hne]
  · exact unescape_core_eq_self
  · intro de s de1 h
    simp [De.deserialize_str, h, except_bind_ok]

/-- Witness for C4's amended theorem: the quote escape backslash-quote is
left borrowed and untouched; a content with backslash-backtick is owned
after replacement; and `deserialize_str` applies that unescape to a
quote-delimited string. -/
theorem unescape_backtick_escape_only_witness :
    unescape_str [backslashC, squoteC] = Cow.borrowed [backslashC, squoteC] ∧
    unescape_str [Char.ofNat 97, backslashC, backtickC] =
      Cow.owned (unescape_core [Char.ofNat 97, backslashC, backtickC]) ∧
    De.deserialize_str ⟨[squoteC, backslashC, squoteC, squoteC], 0⟩ =
      .ok (unescape_str [backslashC, squoteC],
        ⟨[squoteC, backslashC, squoteC, squoteC], 4⟩) :=
  ⟨(unescape_backtick_escape_only.1 _).mpr (by decide),
    (unescape_backtick_escape_only.2.1 _ (by decide)).1,
    unescape_backtick_escape_only.2.2.2 _ _ _ (by rfl)⟩

/-- C4 counterexample to the claim as stated: for the quote-delimited
input `'\''` the recorded delimiter is the single quote and the raw
content is backslash-quote, but the unescape step does not replace
backslash-quote by a quote (the content is returned borrowed and
unchanged); only backslash-backtick is ever replaced, as the last
conjunct shows. -/
theorem unescape_ignores_recording_delimiter :
    parse_string [squoteC, backslashC, squoteC, squoteC] =
      .ok (1, [backslashC, squoteC], []) ∧
    unescape_str [backslashC, squoteC] = Cow.borrowed [backslashC, squoteC] ∧
    [backslashC, squoteC] ≠ [squoteC] ∧
    unescape_core [backslashC, backtickC] = [backtickC] :=
  ⟨by rfl, by decide, by decide, by decide⟩

/-- C7: a compound entry carrying `of <alias>` whose alias differs from the
compound's declared scope: on the compound's first entry the decoder fails
with `ShouldBeDeclaredEmpty`; on a later entry it returns end-of-compound
(`None`) with the cursor rolled back to the entry start (`de.index`), the
entry unconsumed.  Stated for all four paths: list entries
(`next_element_seed`) and object entries (`next_key_seed`), first and
non-first, for every element/key seed and every parse of the surrounding
tokens. -/
theorem compound_foreign_scope_behavior :
    (∀ (α : Type) (seed : De → Except Error (α × De)) (c : DCompound)
      (de d1 d2 d3 d4 d5 : De) (alias' : List Char),
      c.kind = some CompoundKind.list → c.isEmpty = false → c.first = false →
      de.parse_and_expect_token kwAND = .ok d1 →
      d1.parse_and_expect_token kwANOTHER = .ok d2 →
      d2.parse_and_expect_token kwITEM = .ok d3 →
      d3.peek_next = .ok (.token kwOF) →
      d3.parse_token = .ok (kwOF, d4) →
      d4.parse_string = .ok (alias', d5) →
      c.scope ≠ some alias' →
      next_element_seed seed c de = .ok (none, c, d5.rollback de.index) ∧
        (d5.rollback de.index).index = de.index) ∧
    (∀ (α : Type) (seed : De → Except Error (α × De)) (c : DCompound)
      (de d1 d2 d3 d4 : De) (alias' : List Char),
      c.kind = some CompoundKind.list → c.isEmpty = false → c.first = true →
      de.parse_and_expect_token kwAN = .ok d1 →
      d1.parse_and_expect_token kwITEM = .ok d2 →
      d2.peek_next = .ok (.token kwOF) →
      d2.parse_token = .ok (kwOF, d3) →
      d3.parse_string = .ok (alias', d4) →
      c.scope ≠ some alias' →
      next_element_seed seed c de = .error .shouldBeDeclaredEmpty) ∧
    (∀ (κ : Type) (seedK : De → Except Error (κ × De)) (c : DCompound)
      (de d1 d2 d3 d4 : De) (k : κ) (ks alias' : List Char),
      c.kind = some CompoundKind.object → c.isEmpty = false → c.first = false →
      de.parse_and_expect_token kwAND = .ok d1 →
      d1.peek_next = .ok (.str ks) →
      seedK d1 = .ok (k, d2) →
      d2.peek_next = .ok (.token kwOF) →
      d2.parse_token = .ok (kwOF, d3) →
      d3.parse_string = .ok (alias', d4) →
      c.scope ≠ some alias' →
      next_key_seed seedK c de = .ok (none, c, d4.rollback de.index) ∧
        (d4.rollback de.index).index = de.index) ∧
    (∀ (κ : Type) (seedK : De → Except Error (κ × De)) (c : DCompound)
      (de d1 d2 d3 : De) (k : κ) (ks alias' : List Char),
      c.kind = some CompoundKind.object → c.isEmpty = false → c.first = true →
      de.peek_next = .ok (.str ks) →
      seedK de = .ok (k, d1) →
      d1.peek_next = .ok (.token kwOF) →
      d1.parse_token = .ok (kwOF, d2) →
      d2.parse_string = .ok (alias', d3) →
      c.scope ≠ some alias' →
      next_key_seed seedK c de = .error .shouldBeDeclaredEmpty) := by
  refine ⟨?_, ?_, ?_, ?_⟩
  · intro α seed c de d1 d2 d3 d4 d5 alias' hk he hf h1 h2 h3 h4 h5 h6 h7
    have hd : c.is_described = true := by
      simp [DCompound.is_described, hk]
    have hl : c.is_list = true := by
      simp [DCompound.is_list, hk, he]
    refine ⟨?_, rfl⟩
    simp [next_element_seed, hd, hl, he, hf, h1, h2, h3, h4, h5, h6, h7,
      except_bind_ok, except_bind_error, pure, Except.pure]
  · intro α seed c de d1 d2 d3 d4 alias' hk he hf h1 h2 h3 h4 h5 h6
    have hd : c.is_described = true := by
      simp [DCompound.is_described, hk]
    have hl : c.is_list = true := by
      simp [DCompound.is_list, hk, he]
    simp [next_element_seed, hd, hl, he, hf, h1, h2, h3, h4, h5, h6,
      except_bind_ok, except_bind_error, pure, Except.pure]
  · intro κ seedK c de d1 d2 d3 d4 k ks alias' hk he hf h1 h2 h3 h4 h5 h6 h7
    have hd : c.is_described = true := by
      simp [DCompound.is_described, hk]
    have ho : c.is_object = true := by
      simp [DCompound.is_object, hk, he]
    refine ⟨?_, rfl⟩
    simp [next_key_seed, hd, ho, he, hf, h1, h2, h3, h4, h5, h6, h7,
      except_bind_ok, except_bind_error, pure, Except.pure]
  · intro κ seedK c de d1 d2 d3 k ks alias' hk he hf h1 h2 h3 h4 h5 h6
    have hd : c.is_described = true := by
      simp [DCompound.is_described, hk]
    have ho : c.is_object = true := by
      simp [DCompound.is_object, hk, he]
    simp [next_key_seed, hd, ho, he, hf, h1, h2, h3, h4, h5, h6,
      except_bind_ok, except_bind_error, pure, Except.pure]

/-- Witness for C7 at concrete sentences with declared scope `s` and
foreign alias `a`: the non-first list entry
`and another item of <a> is 1` and object entry `and <k> of <a> is 1`
end the compound with the cursor back at position 0; the first entries
`an item of <a> is 1` and `<k> of <a> is 1` fail with
`ShouldBeDeclaredEmpty`. -/
theorem compound_foreign_scope_behavior_witness :
    next_element_seed (fun de => Except.ok ((), de))
        ⟨none, some "s".data, some CompoundKind.list, false, false, none⟩
        ⟨"and another item of `a` is 1".data, 0⟩ =
      .ok (none,
        ⟨none, some "s".data, some CompoundKind.list, false, false, none⟩,
        ⟨"and another item of `a` is 1".data, 0⟩) ∧
    next_element_seed (fun de => Except.ok ((), de))
        ⟨none, some "s".data, some CompoundKind.list, false, true, none⟩
        ⟨"an item of `a` is 1".data, 0⟩ =
      .error .shouldBeDeclaredEmpty ∧
    next_key_seed map_key_any
        ⟨none, some "s".data, some CompoundKind.object, false, false, none⟩
        ⟨"and `k` of `a` is 1".data, 0⟩ =
      .ok (none,
        ⟨none, some "s".data, some CompoundKind.object, false, false, none⟩,
        ⟨"and `k` of `a` is 1".data, 0⟩) ∧
    next_key_seed map_key_any
        ⟨none, some "s".data, some CompoundKind.object, false, true, none⟩
        ⟨"`k` of `a` is 1".data, 0⟩ =
      .error .shouldBeDeclaredEmpty := by
  refine ⟨?_, ?_, ?_, ?_⟩
  · exact (compound_foreign_scope_behavior.1 Unit (fun de => Except.ok ((), de))
      ⟨none, some "s".data, some CompoundKind.list, false, false, none⟩
      ⟨"and another item of `a` is 1".data, 0⟩
      ⟨"and another item of `a` is 1".data, 4⟩
      ⟨"and another item of `a` is 1".data, 12⟩
      ⟨"and another item of `a` is 1".data, 17⟩
      ⟨"and another item of `a` is 1".data, 20⟩
      ⟨"and another item of `a` is 1".data, 24⟩
      [Char.ofNat 97] rfl rfl rfl (by rfl) (by rfl) (by rfl) (by rfl)
      (by rfl) (by rfl) (by decide)).1
  · exact compound_foreign_scope_behavior.2.1 Unit (fun de => Except.ok ((), de))
      ⟨none, some "s".data, some CompoundKind.list, false, true, none⟩
      ⟨"an item of `a` is 1".data, 0⟩
      ⟨"an item of `a` is 1".data, 3⟩
      ⟨"an item of `a` is 1".data, 8⟩
      ⟨"an item of `a` is 1".data, 11⟩
      ⟨"an item of `a` is 1".data, 15⟩
      [Char.ofNat 97] rfl rfl rfl (by rfl) (by rfl) (by rfl) (by rfl)
      (by rfl) (by decide)
  · exact (compound_foreign_scope_behavior.2.2.1 Key map_key_any
      ⟨none, some "s".data, some CompoundKind.object, false, false, none⟩
      ⟨"and `k` of `a` is 1".data, 0⟩
      ⟨"and `k` of `a` is 1".data, 4⟩
      ⟨"and `k` of `a` is 1".data, 8⟩
      ⟨"and `k` of `a` is 1".data, 11⟩
      ⟨"and `k` of `a` is 1".data, 15⟩
      (.string [Char.ofNat 107]) [Char.ofNat 107] [Char.ofNat 97]
      rfl rfl rfl (by rfl) (by rfl) (by rfl) (by rfl) (by rfl) (by rfl)
      (by decide)).1
  · exact compound_foreign_scope_behavior.2.2.2 Key map_key_any
      ⟨none, some "s".data, some CompoundKind.object, false, true, none⟩
      ⟨"`k` of `a` is 1".data, 0⟩
      ⟨"`k` of `a` is 1".data, 4⟩
      ⟨"`k` of `a` is 1".data, 7⟩
      ⟨"`k` of `a` is 1".data, 11⟩
      (.string [Char.ofNat 107]) [Char.ofNat 107] [Char.ofNat 97]
      rfl rfl rfl (by rfl) (by rfl) (by rfl) (by rfl) (by rfl) (by decide)

/-- Whether serializing a value pushes a scope entry onto the context:
exactly the nonempty sequences and maps (an empty compound never runs
`init_list`/`init_object`), through any newtype-variant wrapper. -/
def introducesScope : RVal → Bool
  | .seq _ xs => !xs.isEmpty
  | .map _ es => !es.isEmpty
  | .newtypeVariant _ v => introducesScope v
  | _ => false

/-- Pushing the list context adds exactly one entry. -/
theorem push_list_context_length (ctx : List (List Char)) :
    (push_list_context ctx).length = ctx.length + 1 := by
  unfold push_list_context
  by_cases h : ctx = [] <;> simp [h]

/-- Pushing the object context adds exactly one entry. -/
theorem push_object_context_length (ctx : List (List Char)) :
    (push_object_context ctx).length = ctx.length + 1 := by
  unfold push_object_context
  by_cases h : ctx = [] <;> simp [h]

/-- Pushing a named context adds exactly one entry. -/
theorem push_named_context_length (ctx : List (List Char)) (name : List Char) :
    (push_named_context ctx name).length = ctx.length + 1 := by
  unfold push_named_context
  by_cases h : ctx = [] <;> simp [h]

/-- After the first element, `init_list` is the identity. -/
theorem init_list_of_ne (st : SerCompound) (h : st.index ≠ 0) :
    st.init_list = st := by
  simp [SerCompound.init_list, h]

/-- After the first entry, `init_object` is the identity. -/
theorem init_object_of_ne (st : SerCompound) (h : st.index ≠ 0) :
    st.init_object = st := by
  simp [SerCompound.init_object, h]

mutual

/-- A successful serialization extends the ambient context by exactly one
entry when the value introduces a scope and leaves it unchanged
otherwise (the length comparison `value` performs in `ser.rs` lines
393-399). -/
theorem encodeR_scope_growth (ctx : List (List Char)) (v : RVal)
    (out : List Char) (ctx' : List (List Char))
    (h : encodeR ctx v = .ok (out, ctx')) :
    ctx'.length = ctx.length + (if introducesScope v = true then 1 else 0) := by
  match v with
  | .int n => simp only [encodeR, Except.ok.injEq, Prod.mk.injEq] at h
              simp [← h.2, introducesScope]
  | .bool b => simp only [encodeR, Except.ok.injEq, Prod.mk.injEq] at h
               simp [← h.2, introducesScope]
  | .str s => simp only [encodeR, Except.ok.injEq, Prod.mk.injEq] at h
              simp [← h.2, introducesScope]
  | .unit => simp only [encodeR, Except.ok.injEq, Prod.mk.injEq] at h
             simp [← h.2, introducesScope]
  | .noneV => simp only [encodeR, Except.ok.injEq, Prod.mk.injEq] at h
              simp [← h.2, introducesScope]
  | .unitStruct name => simp only [encodeR, Except.ok.injEq, Prod.mk.injEq] at h
                        simp [← h.2, introducesScope]
  | .newtypeVariant variant v =>
    simp only [encodeR] at h
    have := encodeR_scope_growth ctx v out ctx' h
    simpa [introducesScope] using this
  | .seq name xs =>
    simp only [encodeR] at h
    cases hst : encode_items (SerCompound.new name ctx) xs with
    | error e => rw [hst] at h; simp [except_bind_error] at h
    | ok st =>
      rw [hst] at h
      simp only [except_bind_ok, Except.ok.injEq, Prod.mk.injEq] at h
      have hs := (encode_items_state xs (SerCompound.new name ctx) st hst).1
      rw [← h.2]
      cases hxs : xs.isEmpty with
      | true =>
        rw [hxs] at hs
        simp only [if_true] at hs
        have : xs = [] := by
          cases xs with
          | nil => rfl
          | cons a l => simp at hxs
        subst this
        simp [hs, SerCompound.new, introducesScope]
      | false =>
        rw [hxs] at hs
        simp only [Bool.false_eq_true, if_false] at hs
        rw [hs]
        cases name with
        | none =>
          simp [SerCompound.new, SerCompound.init_list,
            push_list_context_length, introducesScope, hxs]
        | some n =>
          simp [SerCompound.new, SerCompound.init_list,
            push_named_context_length, introducesScope, hxs]
  | .map name es =>
    simp only [encodeR] at h
    cases hst : encode_entries (SerCompound.new name ctx) es with
    | error e => rw [hst] at h; simp [except_bind_error] at h
    | ok st =>
      rw [hst] at h
      simp only [except_bind_ok, Except.ok.injEq, Prod.mk.injEq] at h
      have hs := (encode_entries_state es (SerCompound.new name ctx) st hst).1
      rw [← h.2]
      cases hes : es.isEmpty with
      | true =>
        rw [hes] at hs
        simp only [if_true] at hs
        have : es = [] := by
          cases es with
          | nil => rfl
          | cons a l => simp at hes
        subst this
        simp [hs, SerCompound.new, introducesScope]
      | false =>
        rw [hes] at hs
        simp only [Bool.false_eq_true, if_false] at hs
        rw [hs]
        cases name with
        | none =>
          simp [SerCompound.new, SerCompound.init_object,
            push_object_context_length, introducesScope, hes]
        | some n =>
          simp [SerCompound.new, SerCompound.init_object,
            push_named_context_length, introducesScope, hes]
termination_by (sizeOf v, 0)

/-- State after serializing all elements of a sequence: the context is
pushed once (iff any element ran), the index counts the elements, the
compound stops being a leaf exactly when the state it started from was
already flagged or a non-final element introduced a scope, and the pending
new-scope flag reflects the last element. -/
theorem encode_items_state (xs : List RVal) (st st' : SerCompound)
    (h : encode_items st xs = .ok st') :
    st'.ctx = (if xs.isEmpty then st.ctx else st.init_list.ctx) ∧
    st'.index = st.index + xs.length ∧
    st'.isLeaf = (if xs.isEmpty then st.isLeaf
      else (st.isLeaf && !st.isNewScope && !(xs.dropLast.any introducesScope))) ∧
    st'.isNewScope = (match xs.getLast? with
      | none => st.isNewScope
      | some x => introducesScope x) := by
  match xs with
  | [] =>
    simp only [encode_items, Except.ok.injEq] at h
    simp [← h]
  | x :: rest =>
    simp only [encode_items] at h
    cases he : encode_element st x with
    | error e => rw [he] at h; simp [except_bind_error] at h
    | ok st2 =>
      rw [he] at h
      simp only [except_bind_ok] at h
      have e1 := encode_element_state x st st2 he
      have e2 := encode_items_state rest st2 st' h
      have hidx2 : st2.index ≠ 0 := by omega
      have hinit2 : st2.init_list = st2 := init_list_of_ne st2 hidx2
      match rest with
      | [] =>
        simp only [List.isEmpty_nil, if_pos] at e2
        refine ⟨?_, ?_, ?_, ?_⟩
        · simp [e2.1, e1.1]
        · simp [e2.2.1, e1.2.1]
        · simp [e2.2.2.1, e1.2.2.1]
        · simp [e2.2.2.2, e1.2.2.2]
      | y :: ys =>
        have hre : (y :: ys).isEmpty = false := by simp
        rw [hre] at e2
        simp only [Bool.false_eq_true, if_false] at e2
        refine ⟨?_, ?_, ?_, ?_⟩
        · simp [e2.1, hinit2, e1.1]
        · simp only [e2.2.1, e1.2.1, List.length_cons]
          omega
        · rw [e2.2.2.1, e1.2.2.1, e1.2.2.2]
          have hdl : (x :: y :: ys).dropLast = x :: (y :: ys).dropLast := rfl
          rw [hdl]
          simp only [List.any_cons, List.isEmpty_cons, Bool.false_eq_true,
            if_false]
          cases st.isLeaf <;> cases st.isNewScope <;>
            cases hx : introducesScope x <;>
            cases hys : (y :: ys).dropLast.any introducesScope <;> simp [hys]
        · rw [e2.2.2.2]
          rfl
termination_by (sizeOf xs, 2)

/-- State after one `serialize_element`. -/
theorem encode_element_state (x : RVal) (st st' : SerCompound)
    (h : encode_element st x = .ok st') :
    st'.ctx = st.init_list.ctx ∧
    st'.index = st.index + 1 ∧
    st'.isLeaf = (st.isLeaf && !st.isNewScope) ∧
    st'.isNewScope = introducesScope x := by
  have hidx0 : st.init_list.index = st.index := by
    unfold SerCompound.init_list
    by_cases h0 : st.index = 0 <;> simp [h0]
  have hlf0 : st.init_list.isLeaf = st.isLeaf := by
    unfold SerCompound.init_list
    by_cases h0 : st.index = 0 <;> simp [h0]
  have hns0 : st.init_list.isNewScope = st.isNewScope := by
    unfold SerCompound.init_list
    by_cases h0 : st.index = 0 <;> simp [h0]
  simp only [encode_element, SerCompound.an_item, SerCompound.of_scope,
    SerCompound.isKw] at h
  by_cases hN : st.init_list.isNewScope = true
  · simp only [hN, if_true] at h
    cases hv : encodeR (st.init_list.ctx ++
        ["item ".data ++ (toString (st.init_list.index + 1)).data]) x with
    | error e => rw [hv] at h; simp [except_bind_error] at h
    | ok pv =>
      rw [hv] at h
      simp only [except_bind_ok, Except.ok.injEq] at h
      have hg := encodeR_scope_growth _ x pv.1 pv.2 hv
      rw [← h]
      refine ⟨List.dropLast_concat .., by simp [hidx0], ?_, ?_⟩
      · rw [hns0] at hN
        simp [hN]
      · simp only [List.length_append, List.length_cons, List.length_nil] at hg
        by_cases hi : introducesScope x = true
        · rw [if_pos hi] at hg
          rw [hi]
          simp only []
          rw [if_pos (by simp only [List.length_append, List.length_cons,
            List.length_nil]; omega)]
        · rw [if_neg hi] at hg
          simp only [Bool.not_eq_true] at hi
          rw [hi]
          simp only []
          rw [if_neg (by simp only [List.length_append, List.length_cons,
            List.length_nil]; omega)]
  · simp only [hN, Bool.false_eq_true, if_false] at h
    cases hv : encodeR (st.init_list.ctx ++
        ["item ".data ++ (toString (st.init_list.index + 1)).data]) x with
    | error e => rw [hv] at h; simp [except_bind_error] at h
    | ok pv =>
      rw [hv] at h
      simp only [except_bind_ok, Except.ok.injEq] at h
      have hg := encodeR_scope_growth _ x pv.1 pv.2 hv
      rw [← h]
      refine ⟨List.dropLast_concat .., by simp [hidx0], ?_, ?_⟩
      · rw [hns0] at hN
        simp only [Bool.not_eq_true] at hN
        simp [hN, hlf0]
      · simp only [List.length_append, List.length_cons, List.length_nil] at hg
        by_cases hi : introducesScope x = true
        · rw [if_pos hi] at hg
          rw [hi]
          simp only []
          rw [if_pos (by simp only [List.length_append, List.length_cons,
            List.length_nil]; omega)]
        · rw [if_neg hi] at hg
          simp only [Bool.not_eq_true] at hi
          rw [hi]
          simp only []
          rw [if_neg (by simp only [List.length_append, List.length_cons,
            List.length_nil]; omega)]
termination_by (sizeOf x, 1)

/-- State after serializing all entries of a map: the object analogue of
`encode_items_state` (the new-scope flag reflects the last entry's value;
the key itself serializes under a fresh empty context). -/
theorem encode_entries_state (es : List (RVal × RVal)) (st st' : SerCompound)
    (h : encode_entries st es = .ok st') :
    st'.ctx = (if es.isEmpty then st.ctx else st.init_object.ctx) ∧
    st'.index = st.index + es.length ∧
    st'.isLeaf = (if es.isEmpty then st.isLeaf
      else (st.isLeaf && !st.isNewScope &&
        !(es.dropLast.any (fun e => introducesScope e.2)))) ∧
    st'.isNewScope = (match es.getLast? with
      | none => st.isNewScope
      | some e => introducesScope e.2) := by
  match es with
  | [] =>
    simp only [encode_entries, Except.ok.injEq] at h
    simp [← h]
  | e :: rest =>
    simp only [encode_entries] at h
    cases he : encode_entry st e.1 e.2 with
    | error err => rw [he] at h; simp [except_bind_error] at h
    | ok st2 =>
      rw [he] at h
      simp only [except_bind_ok] at h
      have e1 := encode_entry_state e.1 e.2 st st2 he
      have e2 := encode_entries_state rest st2 st' h
      have hidx2 : st2.index ≠ 0 := by omega
      have hinit2 : st2.init_object = st2 := init_object_of_ne st2 hidx2
      match rest with
      | [] =>
        simp only [List.isEmpty_nil, if_pos] at e2
        refine ⟨?_, ?_, ?_, ?_⟩
        · simp [e2.1, e1.1]
        · simp [e2.2.1, e1.2.1]
        · simp [e2.2.2.1, e1.2.2.1]
        · simp [e2.2.2.2, e1.2.2.2]
      | f :: fs =>
        have hre : (f :: fs).isEmpty = false := by simp
        rw [hre] at e2
        simp only [Bool.false_eq_true, if_false] at e2
        refine ⟨?_, ?_, ?_, ?_⟩
        · simp [e2.1, hinit2, e1.1]
        · simp only [e2.2.1, e1.2.1, List.length_cons]
          omega
        · rw [e2.2.2.1, e1.2.2.1, e1.2.2.2]
          have hdl : (e :: f :: fs).dropLast = e :: (f :: fs).dropLast := rfl
          rw [hdl]
          simp only [List.any_cons, List.isEmpty_cons, Bool.false_eq_true,
            if_false]
          cases st.isLeaf <;> cases st.isNewScope <;>
            cases hx : introducesScope e.2 <;>
            cases hys : (f :: fs).dropLast.any (fun e => introducesScope e.2) <;>
            simp [hys]
        · rw [e2.2.2.2]
          rfl
termination_by (sizeOf es, 2)
decreasing_by
  all_goals simp_wf
  all_goals try (apply Prod.Lex.left)
  all_goals try (obtain ⟨a, b⟩ := e)
  all_goals try simp
  all_goals try omega

/-- State after one map entry (`serialize_key` + `serialize_value`). -/
theorem encode_entry_state (k v : RVal) (st st' : SerCompound)
    (h : encode_entry st k v = .ok st') :
    st'.ctx = st.init_object.ctx ∧
    st'.index = st.index + 1 ∧
    st'.isLeaf = (st.isLeaf && !st.isNewScope) ∧
    st'.isNewScope = introducesScope v := by
  have hidx0 : st.init_object.index = st.index := by
    unfold SerCompound.init_object
    by_cases h0 : st.index = 0 <;> simp [h0]
  have hlf0 : st.init_object.isLeaf = st.isLeaf := by
    unfold SerCompound.init_object
    by_cases h0 : st.index = 0 <;> simp [h0]
  have hns0 : st.init_object.isNewScope = st.isNewScope := by
    unfold SerCompound.init_object
    by_cases h0 : st.index = 0 <;> simp [h0]
  simp only [encode_entry] at h
  cases hk : encodeR [] k with
  | error e => rw [hk] at h; simp [except_bind_error] at h
  | ok pk =>
    rw [hk] at h
    simp only [except_bind_ok] at h
    by_cases hcond : (humanize pk.1).head? = some backtickC ∧
        ends_with (humanize pk.1) [backtickC] = true ∧ (humanize pk.1).length > 1
    swap
    · rw [if_neg hcond] at h
      simp at h
    rw [if_pos hcond] at h
    simp only [SerCompound.of_scope, SerCompound.isKw] at h
    by_cases hN : st.init_object.isNewScope = true
    · simp only [hN, if_true] at h
      cases hv : encodeR (st.init_object.ctx ++
          [(List.drop 1 (humanize pk.1)).dropLast]) v with
      | error e => rw [hv] at h; simp [except_bind_error] at h
      | ok pv =>
        rw [hv] at h
        simp only [except_bind_ok, Except.ok.injEq] at h
        have hg := encodeR_scope_growth _ v pv.1 pv.2 hv
        rw [← h]
        refine ⟨List.dropLast_concat .., by simp [hidx0], ?_, ?_⟩
        · rw [hns0] at hN
          simp [hN]
        · simp only [List.length_append, List.length_cons,
            List.length_nil] at hg
          by_cases hi : introducesScope v = true
          · rw [if_pos hi] at hg
            rw [hi]
            simp only []
            rw [if_pos (by simp only [List.length_append, List.length_cons,
              List.length_nil]; omega)]
          · rw [if_neg hi] at hg
            simp only [Bool.not_eq_true] at hi
            rw [hi]
            simp only []
            rw [if_neg (by simp only [List.length_append, List.length_cons,
              List.length_nil]; omega)]
    · simp only [hN, Bool.false_eq_true, if_false] at h
      cases hv : encodeR (st.init_object.ctx ++
          [(List.drop 1 (humanize pk.1)).dropLast]) v with
      | error e => rw [hv] at h; simp [except_bind_error] at h
      | ok pv =>
        rw [hv] at h
        simp only [except_bind_ok, Except.ok.injEq] at h
        have hg := encodeR_scope_growth _ v pv.1 pv.2 hv
        rw [← h]
        refine ⟨List.dropLast_concat .., by simp [hidx0], ?_, ?_⟩
        · rw [hns0] at hN
          simp only [Bool.not_eq_true] at hN
          simp [hN, hlf0]
        · simp only [List.length_append, List.length_cons,
            List.length_nil] at hg
          by_cases hi : introducesScope v = true
          · rw [if_pos hi] at hg
            rw [hi]
            simp only []
            rw [if_pos (by simp only [List.length_append, List.length_cons,
              List.length_nil]; omega)]
          · rw [if_neg hi] at hg
            simp only [Bool.not_eq_true] at hi
            rw [hi]
            simp only []
            rw [if_neg (by simp only [List.length_append, List.length_cons,
              List.length_nil]; omega)]
termination_by (sizeOf k + sizeOf v, 1)
decreasing_by
  all_goals apply Prod.Lex.left
  all_goals have := RVal.sizeOf_pos k
  all_goals omega

end

/-- `serialize_element` never changes the compound's recorded name. -/
theorem encode_element_name (x : RVal) (st st' : SerCompound)
    (h : encode_element st x = .ok st') : st'.name = st.name := by
  have hn0 : st.init_list.name = st.name := by
    unfold SerCompound.init_list
    by_cases h0 : st.index = 0 <;> simp [h0]
  simp only [encode_element, SerCompound.an_item, SerCompound.of_scope,
    SerCompound.isKw] at h
  by_cases hN : st.init_list.isNewScope = true
  · simp only [hN, if_true] at h
    cases hv : encodeR (st.init_list.ctx ++
        ["item ".data ++ (toString (st.init_list.index + 1)).data]) x with
    | error e => rw [hv] at h; simp [except_bind_error] at h
    | ok pv =>
      rw [hv] at h
      simp only [except_bind_ok, Except.ok.injEq] at h
      rw [← h]
      exact hn0
  · simp only [hN, Bool.false_eq_true, if_false] at h
    cases hv : encodeR (st.init_list.ctx ++
        ["item ".data ++ (toString (st.init_list.index + 1)).data]) x with
    | error e => rw [hv] at h; simp [except_bind_error] at h
    | ok pv =>
      rw [hv] at h
      simp only [except_bind_ok, Except.ok.injEq] at h
      rw [← h]
      exact hn0

/-- Serializing a whole element list keeps the compound's name. -/
theorem encode_items_name (xs : List RVal) (st st' : SerCompound)
    (h : encode_items st xs = .ok st') : st'.name = st.name := by
  induction xs generalizing st with
  | nil =>
    simp only [encode_items, Except.ok.injEq] at h
    rw [← h]
  | cons x rest ih =>
    simp only [encode_items] at h
    cases he : encode_element st x with
    | error e => rw [he] at h; simp [except_bind_error] at h
    | ok st2 =>
      rw [he] at h
      simp only [except_bind_ok] at h
      rw [ih st2 h, encode_element_name x st st2 he]

/-- One map entry keeps the compound's name. -/
theorem encode_entry_name (k v : RVal) (st st' : SerCompound)
    (h : encode_entry st k v = .ok st') : st'.name = st.name := by
  have hn0 : st.init_object.name = st.name := by
    unfold SerCompound.init_object
    by_cases h0 : st.index = 0 <;> simp [h0]
  simp only [encode_entry] at h
  cases hk : encodeR [] k with
  | error e => rw [hk] at h; simp [except_bind_error] at h
  | ok pk =>
    rw [hk] at h
    simp only [except_bind_ok] at h
    by_cases hcond : (humanize pk.1).head? = some backtickC ∧
        ends_with (humanize pk.1) [backtickC] = true ∧ (humanize pk.1).length > 1
    swap
    · rw [if_neg hcond] at h
      simp at h
    rw [if_pos hcond] at h
    simp only [SerCompound.of_scope, SerCompound.isKw] at h
    by_cases hN : st.init_object.isNewScope = true
    · simp only [hN, if_true] at h
      cases hv : encodeR (st.init_object.ctx ++
          [(List.drop 1 (humanize pk.1)).dropLast]) v with
      | error e => rw [hv] at h; simp [except_bind_error] at h
      | ok pv =>
        rw [hv] at h
        simp only [except_bind_ok, Except.ok.injEq] at h
        rw [← h]
        exact hn0
    · simp only [hN, Bool.false_eq_true, if_false] at h
      cases hv : encodeR (st.init_object.ctx ++
          [(List.drop 1 (humanize pk.1)).dropLast]) v with
      | error e => rw [hv] at h; simp [except_bind_error] at h
      | ok pv =>
        rw [hv] at h
        simp only [except_bind_ok, Except.ok.injEq] at h
        rw [← h]
        exact hn0

/-- Serializing a whole entry list keeps the compound's name. -/
theorem encode_entries_name (es : List (RVal × RVal)) (st st' : SerCompound)
    (h : encode_entries st es = .ok st') : st'.name = st.name := by
  induction es generalizing st with
  | nil =>
    simp only [encode_entries, Except.ok.injEq] at h
    rw [← h]
  | cons e rest ih =>
    simp only [encode_entries] at h
    cases he : encode_entry st e.1 e.2 with
    | error err => rw [he] at h; simp [except_bind_error] at h
    | ok st2 =>
      rw [he] at h
      simp only [except_bind_ok] at h
      rw [ih st2 h, encode_entry_name e.1 e.2 st st2 he]

/-- `serialize_element` only ever appends to the scratch buffer. -/
theorem encode_element_buffer (x : RVal) (st st' : SerCompound)
    (h : encode_element st x = .ok st') : st.buffer <+: st'.buffer := by
  have hb0 : st.init_list.buffer = st.buffer := by
    unfold SerCompound.init_list
    by_cases h0 : st.index = 0 <;> simp [h0]
  simp only [encode_element, SerCompound.an_item, SerCompound.of_scope,
    SerCompound.isKw] at h
  by_cases hN : st.init_list.isNewScope = true
  · simp only [hN, if_true] at h
    cases hv : encodeR (st.init_list.ctx ++
        ["item ".data ++ (toString (st.init_list.index + 1)).data]) x with
    | error e => rw [hv] at h; simp [except_bind_error] at h
    | ok pv =>
      rw [hv] at h
      simp only [except_bind_ok, Except.ok.injEq] at h
      rw [← h]
      simp [hb0, List.append_assoc]
  · simp only [hN, Bool.false_eq_true, if_false] at h
    cases hv : encodeR (st.init_list.ctx ++
        ["item ".data ++ (toString (st.init_list.index + 1)).data]) x with
    | error e => rw [hv] at h; simp [except_bind_error] at h
    | ok pv =>
      rw [hv] at h
      simp only [except_bind_ok, Except.ok.injEq] at h
      rw [← h]
      simp [hb0, List.append_assoc]

/-- Serializing an element list only ever appends to the buffer. -/
theorem encode_items_buffer (xs : List RVal) (st st' : SerCompound)
    (h : encode_items st xs = .ok st') : st.buffer <+: st'.buffer := by
  induction xs generalizing st with
  | nil =>
    simp only [encode_items, Except.ok.injEq] at h
    rw [← h]
  | cons x rest ih =>
    simp only [encode_items] at h
    cases he : encode_element st x with
    | error e => rw [he] at h; simp [except_bind_error] at h
    | ok st2 =>
      rw [he] at h
      simp only [except_bind_ok] at h
      exact (encode_element_buffer x st st2 he).trans (ih st2 h)

/-- One map entry only ever appends to the scratch buffer. -/
theorem encode_entry_buffer (k v : RVal) (st st' : SerCompound)
    (h : encode_entry st k v = .ok st') : st.buffer <+: st'.buffer := by
  have hb0 : st.init_object.buffer = st.buffer := by
    unfold SerCompound.init_object
    by_cases h0 : st.index = 0 <;> simp [h0]
  simp only [encode_entry] at h
  cases hk : encodeR [] k with
  | error e => rw [hk] at h; simp [except_bind_error] at h
  | ok pk =>
    rw [hk] at h
    simp only [except_bind_ok] at h
    by_cases hcond : (humanize pk.1).head? = some backtickC ∧
        ends_with (humanize pk.1) [backtickC] = true ∧ (humanize pk.1).length > 1
    swap
    · rw [if_neg hcond] at h
      simp at h
    rw [if_pos hcond] at h
    simp only [SerCompound.of_scope, SerCompound.isKw] at h
    by_cases hN : st.init_object.isNewScope = true
    · simp only [hN, if_true] at h
      cases hv : encodeR (st.init_object.ctx ++
          [(List.drop 1 (humanize pk.1)).dropLast]) v with
      | error e => rw [hv] at h; simp [except_bind_error] at h
      | ok pv =>
        rw [hv] at h
        simp only [except_bind_ok, Except.ok.injEq] at h
        rw [← h]
        simp [hb0, List.append_assoc]
    · simp only [hN, Bool.false_eq_true, if_false] at h
      cases hv : encodeR (st.init_object.ctx ++
          [(List.drop 1 (humanize pk.1)).dropLast]) v with
      | error e => rw [hv] at h; simp [except_bind_error] at h
      | ok pv =>
        rw [hv] at h
        simp only [except_bind_ok, Except.ok.injEq] at h
        rw [← h]
        simp [hb0, List.append_assoc]

/-- Serializing an entry list only ever appends to the buffer. -/
theorem encode_entries_buffer (es : List (RVal × RVal)) (st st' : SerCompound)
    (h : encode_entries st es = .ok st') : st.buffer <+: st'.buffer := by
  induction es generalizing st with
  | nil =>
    simp only [encode_entries, Except.ok.injEq] at h
    rw [← h]
  | cons e rest ih =>
    simp only [encode_entries] at h
    cases he : encode_entry st e.1 e.2 with
    | error err => rw [he] at h; simp [except_bind_error] at h
    | ok st2 =>
      rw [he] at h
      simp only [except_bind_ok] at h
      exact (encode_entry_buffer e.1 e.2 st st2 he).trans (ih st2 h)

/-- The first element of a fresh compound opens its buffer with
`` where an`` (`an_item` with index 0, `of_scope` skipped). -/
theorem encode_element_first_buffer (x : RVal) (st st' : SerCompound)
    (h0 : st.index = 0) (hn : st.isNewScope = false) (hb : st.buffer = [])
    (h : encode_element st x = .ok st') :
    " where an ".data <+: st'.buffer := by
  have hb0 : st.init_list.buffer = st.buffer := by
    unfold SerCompound.init_list
    by_cases hz : st.index = 0 <;> simp [hz]
  have hi0 : st.init_list.index = st.index := by
    unfold SerCompound.init_list
    by_cases hz : st.index = 0 <;> simp [hz]
  have hn0 : st.init_list.isNewScope = st.isNewScope := by
    unfold SerCompound.init_list
    by_cases hz : st.index = 0 <;> simp [hz]
  simp only [encode_element, SerCompound.an_item, SerCompound.of_scope,
    SerCompound.isKw] at h
  rw [hn0, hn] at h
  simp only [Bool.false_eq_true, if_false] at h
  cases hv : encodeR (st.init_list.ctx ++
      ["item ".data ++ (toString (st.init_list.index + 1)).data]) x with
  | error e => rw [hv] at h; simp [except_bind_error] at h
  | ok pv =>
    rw [hv] at h
    simp only [except_bind_ok, Except.ok.injEq] at h
    rw [← h]
    simp [hb0, hb, hi0, h0, List.append_assoc]

/-- The first entry of a fresh compound opens its buffer with
`` where``. -/
theorem encode_entry_first_buffer (k v : RVal) (st st' : SerCompound)
    (h0 : st.index = 0) (hn : st.isNewScope = false) (hb : st.buffer = [])
    (h : encode_entry st k v = .ok st') :
    " where ".data <+: st'.buffer := by
  have hb0 : st.init_object.buffer = st.buffer := by
    unfold SerCompound.init_object
    by_cases hz : st.index = 0 <;> simp [hz]
  have hi0 : st.init_object.index = st.index := by
    unfold SerCompound.init_object
    by_cases hz : st.index = 0 <;> simp [hz]
  have hn0 : st.init_object.isNewScope = st.isNewScope := by
    unfold SerCompound.init_object
    by_cases hz : st.index = 0 <;> simp [hz]
  simp only [encode_entry] at h
  cases hk : encodeR [] k with
  | error e => rw [hk] at h; simp [except_bind_error] at h
  | ok pk =>
    rw [hk] at h
    simp only [except_bind_ok] at h
    by_cases hcond : (humanize pk.1).head? = some backtickC ∧
        ends_with (humanize pk.1) [backtickC] = true ∧ (humanize pk.1).length > 1
    swap
    · rw [if_neg hcond] at h
      simp at h
    rw [if_pos hcond] at h
    simp only [SerCompound.of_scope, SerCompound.isKw] at h
    rw [hn0, hn] at h
    simp only [Bool.false_eq_true, if_false] at h
    cases hv : encodeR (st.init_object.ctx ++
        [(List.drop 1 (humanize pk.1)).dropLast]) v with
    | error e => rw [hv] at h; simp [except_bind_error] at h
    | ok pv =>
      rw [hv] at h
      simp only [except_bind_ok, Except.ok.injEq] at h
      rw [← h]
      simp [hb0, hb, hi0, h0, List.append_assoc]

/-- A non-empty element list leaves a buffer starting with `` where an``. -/
theorem encode_items_where (name : Option (List Char))
    (ctx : List (List Char)) (xs : List RVal) (st' : SerCompound)
    (hxs : xs ≠ []) (h : encode_items (SerCompound.new name ctx) xs = .ok st') :
    " where an ".data <+: st'.buffer := by
  match xs with
  | [] => exact absurd rfl hxs
  | x :: rest =>
    simp only [encode_items] at h
    cases he : encode_element (SerCompound.new name ctx) x with
    | error e => rw [he] at h; simp [except_bind_error] at h
    | ok st2 =>
      rw [he] at h
      simp only [except_bind_ok] at h
      exact (encode_element_first_buffer x (SerCompound.new name ctx) st2
        rfl rfl rfl he).trans (encode_items_buffer rest st2 st' h)

/-- A non-empty entry list leaves a buffer starting with `` where``. -/
theorem encode_entries_where (name : Option (List Char))
    (ctx : List (List Char)) (es : List (RVal × RVal)) (st' : SerCompound)
    (hes : es ≠ []) (h : encode_entries (SerCompound.new name ctx) es = .ok st') :
    " where ".data <+: st'.buffer := by
  match es with
  | [] => exact absurd rfl hes
  | e :: rest =>
    simp only [encode_entries] at h
    cases he : encode_entry (SerCompound.new name ctx) e.1 e.2 with
    | error err => rw [he] at h; simp [except_bind_error] at h
    | ok st2 =>
      rw [he] at h
      simp only [except_bind_ok] at h
      exact (encode_entry_first_buffer e.1 e.2 (SerCompound.new name ctx) st2
        rfl rfl rfl he).trans (encode_entries_buffer rest st2 st' h)

/-- C3: the spec says a compound's opening phrase is followed by a
`henceforth <current-scope>` clause iff at least one child is itself a
compound, regardless of the child's position.  Corrected: `of_scope` reads
the previous sibling's `is_new_scope` flag, so the final child's flag is
never consumed, and the clause is emitted iff a NON-FINAL child introduced
its own scope.  The theorem pins the whole front of the output: opening
phrase, then the clause exactly when a non-final child introduces a scope,
then the first child's introducer. -/
theorem compound_henceforth_iff_nonfinal_scope
    (ctx : List (List Char)) (name : Option (List Char))
    (xs : List RVal) (es : List (RVal × RVal))
    (out outm : List Char) (ctx' ctxm : List (List Char))
    (hxs : xs ≠ []) (hes : es ≠ [])
    (hseq : encodeR ctx (RVal.seq name xs) = .ok (out, ctx'))
    (hmap : encodeR ctx (RVal.map name es) = .ok (outm, ctxm)) :
    (∃ tail, out = "the ".data
        ++ name.elim "list".data (fun n => format_str (humanize n))
        ++ (if xs.dropLast.any introducesScope then
              " henceforth ".data ++ format_str (current_scope ctx')
            else [])
        ++ " where an ".data ++ tail) ∧
    (∃ tail, outm = "the ".data
        ++ name.elim "object".data (fun n => format_str (humanize n))
        ++ (if es.dropLast.any (fun e => introducesScope e.2) then
              " henceforth ".data ++ format_str (current_scope ctxm)
            else [])
        ++ " where ".data ++ tail) := by
  constructor
  · simp only [encodeR] at hseq
    cases hst : encode_items (SerCompound.new name ctx) xs with
    | error e => rw [hst] at hseq; simp [except_bind_error] at hseq
    | ok st =>
      rw [hst] at hseq
      simp only [except_bind_ok, Except.ok.injEq, Prod.mk.injEq] at hseq
      obtain ⟨hout, hctx⟩ := hseq
      have hs := encode_items_state xs (SerCompound.new name ctx) st hst
      have hname := encode_items_name xs (SerCompound.new name ctx) st hst
      have hpre := encode_items_where name ctx xs st hxs hst
      have hxe : xs.isEmpty = false := by
        cases xs with
        | nil => exact absurd rfl hxs
        | cons a l => rfl
      rw [hxe] at hs
      simp only [Bool.false_eq_true, if_false] at hs
      have hlen : 0 < xs.length := List.length_pos.mpr hxs
      have hidx : st.index > 0 := by
        have h2 := hs.2.1
        simp only [SerCompound.new] at h2
        omega
      have hleaf : st.isLeaf = !(xs.dropLast.any introducesScope) := by
        have h3 := hs.2.2.1
        simpa [SerCompound.new] using h3
      have hnm : st.name = name := by
        simpa [SerCompound.new] using hname
      obtain ⟨tail0, htail⟩ := hpre
      refine ⟨tail0, ?_⟩
      rw [← hout]
      simp only [SerCompound.the_list, SerCompound.contents]
      rw [if_pos hidx, hnm, hleaf, hctx, ← htail]
      cases name <;> cases hany : xs.dropLast.any introducesScope <;>
        simp [Option.elim, List.append_assoc]
  · simp only [encodeR] at hmap
    cases hst : encode_entries (SerCompound.new name ctx) es with
    | error e => rw [hst] at hmap; simp [except_bind_error] at hmap
    | ok st =>
      rw [hst] at hmap
      simp only [except_bind_ok, Except.ok.injEq, Prod.mk.injEq] at hmap
      obtain ⟨hout, hctx⟩ := hmap
      have hs := encode_entries_state es (SerCompound.new name ctx) st hst
      have hname := encode_entries_name es (SerCompound.new name ctx) st hst
      have hpre := encode_entries_where name ctx es st hes hst
      have hee : es.isEmpty = false := by
        cases es with
        | nil => exact absurd rfl hes
        | cons a l => rfl
      rw [hee] at hs
      simp only [Bool.false_eq_true, if_false] at hs
      have hlen : 0 < es.length := List.length_pos.mpr hes
      have hidx : st.index > 0 := by
        have h2 := hs.2.1
        simp only [SerCompound.new] at h2
        omega
      have hleaf : st.isLeaf = !(es.dropLast.any (fun e => introducesScope e.2)) := by
        have h3 := hs.2.2.1
        simpa [SerCompound.new] using h3
      have hnm : st.name = name := by
        simpa [SerCompound.new] using hname
      obtain ⟨tail0, htail⟩ := hpre
      refine ⟨tail0, ?_⟩
      rw [← hout]
      simp only [SerCompound.the_object, SerCompound.contents]
      rw [if_pos hidx, hnm, hleaf, hctx, ← htail]
      cases name <;> cases hany : es.dropLast.any (fun e => introducesScope e.2) <;>
        simp [Option.elim, List.append_assoc]

/-- Counterexample to C3 as stated: the single (hence final) child of the
outer list is itself a compound, yet the output contains no `henceforth`
clause at all, because the last child's `is_new_scope` flag is never read. -/
theorem compound_henceforth_skips_final_child :
    ∃ out ctx',
      encodeR [] (RVal.seq none [RVal.seq none [RVal.int 1]]) = .ok (out, ctx') ∧
      introducesScope (RVal.seq none [RVal.int 1]) = true ∧
      ¬ (" henceforth ".data <:+: out) := by
  refine ⟨"the list where an item is the list where an item is 1".data,
    ["the list".data], ?_, by decide, by decide⟩
  simp [encodeR, encode_items, encode_element, SerCompound.new,
    SerCompound.init_list, SerCompound.an_item, SerCompound.of_scope,
    SerCompound.isKw, SerCompound.the_list, SerCompound.contents,
    push_list_context, except_bind_ok, pure, Except.pure]
  decide

/-- Witness for `compound_henceforth_iff_nonfinal_scope` on a list and an
object whose first (non-final) child is a compound: the emitted text does
carry the `henceforth` clause. -/
theorem compound_henceforth_iff_nonfinal_scope_witness :
    (∃ tail,
      ("the list henceforth `the list` where an item is the list where an item is 1 and another item of `the list` is 2").data
        = "the ".data
        ++ (none : Option (List Char)).elim "list".data (fun n => format_str (humanize n))
        ++ (if ([RVal.seq none [RVal.int 1], RVal.int 2] : List RVal).dropLast.any introducesScope then
              " henceforth ".data ++ format_str (current_scope ["the list".data])
            else [])
        ++ " where an ".data ++ tail) ∧
    (∃ tail,
      ("the object henceforth `the object` where the `a` is the list where an item is 1 and the `b` of `the object` is 2").data
        = "the ".data
        ++ (none : Option (List Char)).elim "object".data (fun n => format_str (humanize n))
        ++ (if ([(RVal.str ['a'], RVal.seq none [RVal.int 1]), (RVal.str ['b'], RVal.int 2)] : List (RVal × RVal)).dropLast.any (fun e => introducesScope e.2) then
              " henceforth ".data ++ format_str (current_scope ["the object".data])
            else [])
        ++ " where ".data ++ tail) :=
  compound_henceforth_iff_nonfinal_scope [] none
    [RVal.seq none [RVal.int 1], RVal.int 2]
    [(RVal.str ['a'], RVal.seq none [RVal.int 1]), (RVal.str ['b'], RVal.int 2)]
    ("the list henceforth `the list` where an item is the list where an item is 1 and another item of `the list` is 2").data
    ("the object henceforth `the object` where the `a` is the list where an item is 1 and the `b` of `the object` is 2").data
    ["the list".data] ["the object".data]
    (List.cons_ne_nil _ _) (List.cons_ne_nil _ _)
    (by
      simp [encodeR, encode_items, encode_element, SerCompound.new,
        SerCompound.init_list, SerCompound.an_item, SerCompound.of_scope,
        SerCompound.isKw, SerCompound.the_list, SerCompound.contents,
        push_list_context, except_bind_ok, pure, Except.pure]
      decide)
    (by
      simp [encodeR, encode_entries, encode_entry, encode_items,
        encode_element, SerCompound.new, SerCompound.init_list,
        SerCompound.an_item, SerCompound.init_object, SerCompound.of_scope,
        SerCompound.isKw, SerCompound.the_object, SerCompound.the_list,
        SerCompound.contents, push_object_context, push_list_context,
        format_str, humanize, humanize_loop, trimCL, starts_with, ends_with,
        backtickC, except_bind_ok, pure, Except.pure]
      decide)


/-- Whitespace-only input has no first non-whitespace character. -/
theorem findNonWs_none (src : List Char)
    (h : src.all (fun c => c.isWhitespace)) (n : Nat) :
    ((src.enumFrom n).find? (fun p => ¬ p.2.isWhitespace)) = none := by
  induction src generalizing n with
  | nil => rfl
  | cons c cs ih =>
    simp only [List.all_cons, Bool.and_eq_true] at h
    simp only [List.enumFrom, List.find?]
    rw [show (decide ¬ (c.isWhitespace = true)) = false by simp [h.1]]
    exact ih h.2 (n + 1)

/-- Skipping an all-whitespace prefix finds the first non-whitespace
character at its absolute index. -/
theorem findNonWs_append (w : List Char) (c : Char) (rest : List Char)
    (hw : w.all (fun x => x.isWhitespace)) (hc : ¬ c.isWhitespace = true)
    (n : Nat) :
    (((w ++ c :: rest).enumFrom n).find? (fun p => ¬ p.2.isWhitespace)) =
      some (n + w.length, c) := by
  induction w generalizing n with
  | nil =>
    simp only [List.nil_append, List.enumFrom, List.find?]
    rw [show (decide ¬ (c.isWhitespace = true)) = true by simp [hc]]
    simp
  | cons x xs ih =>
    simp only [List.all_cons, Bool.and_eq_true] at hw
    simp only [List.cons_append, List.enumFrom, List.find?]
    rw [show (decide ¬ (x.isWhitespace = true)) = false by simp [hw.1]]
    show ((xs ++ c :: rest).enumFrom (n + 1)).find?
        (fun p => ¬ p.2.isWhitespace) = _
    rw [ih hw.2 (n + 1)]
    simp only [List.length_cons]
    congr 2
    omega

/-- Content with no closer and no escape runs off the end of the input:
the `s_end.is_none()` check fires `UnexpectedEof`. -/
theorem pd_content_all_plain (d esc : Char) (a : List Char)
    (h : a.all (fun x => ¬ x = d ∧ ¬ x = esc)) (i : Nat) :
    pd_content d esc a i false = .error .unexpectedEof := by
  induction a generalizing i with
  | nil => rfl
  | cons x xs ih =>
    simp only [List.all_cons, Bool.and_eq_true, decide_eq_true_eq] at h
    simp only [pd_content]
    rw [if_neg (by simp [h.1.1]), if_neg (by simp [h.1.2])]
    exact ih (by simpa using h.2) (i + 1)

/-- Plain content, the closer, then a non-whitespace character: the
`was_end_char` check fires `ExpectedWhitespace` at the offending index
relative to the slice `pd_content` was started on. -/
theorem pd_content_plain_then_end (d esc : Char) (a : List Char)
    (h : a.all (fun x => ¬ x = d ∧ ¬ x = esc)) (c : Char) (rest : List Char)
    (hc : ¬ c.isWhitespace = true) (i : Nat) :
    pd_content d esc (a ++ d :: c :: rest) i false =
      .error (.expectedWhitespace (i + a.length + 1)) := by
  induction a generalizing i with
  | nil =>
    simp only [List.nil_append, pd_content]
    rw [if_pos (by simp)]
    simp [pd_after, hc]
  | cons x xs ih =>
    simp only [List.all_cons, Bool.and_eq_true, decide_eq_true_eq] at h
    simp only [List.cons_append, pd_content]
    rw [if_neg (by simp [h.1.1]), if_neg (by simp [h.1.2])]
    show pd_content d esc (xs ++ d :: c :: rest) (i + 1) false = _
    rw [ih (by simpa using h.2) (i + 1)]
    simp only [List.length_cons]
    congr 2
    omega

/-- C9: the spec's three error classes for `parse_string`, with the
`ExpectedWhitespace` offset corrected.  (a) Whitespace-only (or empty)
input fails with `UnexpectedEof`; (b) a first non-whitespace character
that is no delimiter fails with `InvalidString` at its offset in the
input; (c) a missing closing delimiter fails with `UnexpectedEof`;
(d) a non-whitespace character immediately after the closing delimiter
fails with `ExpectedWhitespace`, but its offset `a.length + 2` is
relative to the recorded opening delimiter, not to the whole input:
`parse_string` rebases only the success index by `s_start`, never the
error offsets coming back from `parse_delimited`. -/
theorem parse_string_error_classes :
    (∀ src : List Char, src.all (fun c => c.isWhitespace) →
      parse_string src = .error .unexpectedEof) ∧
    (∀ (w : List Char) (c : Char) (rest : List Char),
      w.all (fun x => x.isWhitespace) → ¬ c.isWhitespace = true →
      ¬ (c = squoteC ∨ c = backtickC ∨ c = dquoteC) →
      parse_string (w ++ c :: rest) = .error (.invalidString w.length)) ∧
    (∀ (w a : List Char) (d : Char),
      w.all (fun x => x.isWhitespace) →
      (d = squoteC ∨ d = backtickC ∨ d = dquoteC) →
      a.all (fun x => ¬ x = d ∧ ¬ x = backslashC) →
      parse_string (w ++ d :: a) = .error .unexpectedEof) ∧
    (∀ (w a : List Char) (d c : Char) (rest : List Char),
      w.all (fun x => x.isWhitespace) →
      (d = squoteC ∨ d = backtickC ∨ d = dquoteC) →
      a.all (fun x => ¬ x = d ∧ ¬ x = backslashC) →
      ¬ c.isWhitespace = true →
      parse_string (w ++ d :: (a ++ d :: c :: rest)) =
        .error (.expectedWhitespace (a.length + 2))) := by
  have hdnw : ∀ d : Char, (d = squoteC ∨ d = backtickC ∨ d = dquoteC) →
      ¬ d.isWhitespace = true := by
    rintro d (h | h | h) <;> subst h <;> decide
  refine ⟨?_, ?_, ?_, ?_⟩
  · intro src h
    simp only [parse_string, List.enum]
    rw [findNonWs_none src h 0]
  · intro w c rest hw hc hnd
    simp only [parse_string, List.enum]
    rw [findNonWs_append w c rest hw hc 0]
    simp only [Nat.zero_add]
    rw [if_neg hnd]
  · intro w a d hw hd ha
    simp only [parse_string, List.enum]
    rw [findNonWs_append w d a hw (hdnw d hd) 0]
    simp only [Nat.zero_add]
    rw [if_pos hd]
    rw [List.drop_left]
    simp only [parse_delimited, pd_start, if_true, except_bind_ok,
      Nat.zero_add, List.drop_succ_cons, List.drop_zero]
    rw [pd_content_all_plain d backslashC a ha 1]
    rfl
  · intro w a d c rest hw hd ha hc
    simp only [parse_string, List.enum]
    rw [findNonWs_append w d (a ++ d :: c :: rest) hw (hdnw d hd) 0]
    simp only [Nat.zero_add]
    rw [if_pos hd]
    rw [List.drop_left]
    simp only [parse_delimited, pd_start, if_true, except_bind_ok,
      Nat.zero_add, List.drop_succ_cons, List.drop_zero]
    rw [pd_content_plain_then_end d backslashC a ha c rest hc 1]
    have : 1 + a.length + 1 = a.length + 2 := by omega
    rw [this]
    rfl

/-- Counterexample to C9 as stated: on input `" \x27\x27a"` the offending
non-whitespace character `a` sits at offset 3, yet the error carries
offset 2 (the offending character's distance from the recorded opening
quote), where the input holds the closing quote. -/
theorem parse_string_offset_not_rebased :
    parse_string [' ', squoteC, squoteC, 'a'] =
      .error (.expectedWhitespace 2) ∧
    [' ', squoteC, squoteC, 'a'].get? 3 = some 'a' ∧
    [' ', squoteC, squoteC, 'a'].get? 2 = some squoteC := by
  refine ⟨?_, by decide, by decide⟩
  rfl

/-- Witness for `parse_string_error_classes`: one concrete input per error
class. -/
theorem parse_string_error_classes_witness :
    parse_string [' ', ' '] = .error .unexpectedEof ∧
    parse_string ([' '] ++ 'x' :: []) = .error (.invalidString 1) ∧
    parse_string ([' '] ++ squoteC :: ['a', 'b']) = .error .unexpectedEof ∧
    parse_string ([' '] ++ squoteC :: (['a', 'b'] ++ squoteC :: 'c' :: [])) =
      .error (.expectedWhitespace 4) :=
  ⟨parse_string_error_classes.1 [' ', ' '] (by decide),
   parse_string_error_classes.2.1 [' '] 'x' [] (by decide) (by decide)
     (by decide),
   parse_string_error_classes.2.2.1 [' '] ['a', 'b'] squoteC (by decide)
     (by decide) (by decide),
   parse_string_error_classes.2.2.2 [' '] ['a', 'b'] squoteC 'c' []
     (by decide) (by decide) (by decide) (by decide)⟩


/-- C1: the round-trip `decode(encode(v)) = v` fails on the one-character
string holding a backslash.  `format_str` escapes only backticks, so the
value serializes to backtick, backslash, backtick; on the way back the
tokenizer treats the backslash as arming an escape, the closing backtick
is taken as content, the string never closes, and the whole decode fails
(for every choice of the date/time parsing oracles) with
`ExpectedKeyWord "the"` after the any-path falls through to the compound
attempt. -/
theorem string_roundtrip_fails_on_backslash :
    encodeR [] (RVal.str [backslashC]) =
      .ok ([backtickC, backslashC, backtickC], []) ∧
    ∀ dtP dP tP : List Char → Bool,
      from_str_simple_value dtP dP tP [backtickC, backslashC, backtickC] =
        .error (.expectedKeyWord kwTHE) := by
  constructor
  · simp [encodeR, format_str]
    decide
  · intro dtP dP tP
    rfl

end Nlsd
